import Mathlib

/-!
# SafeThread: supervised threads and condition-variable events

A shallow embedding of `src/SafeThread.h` (the retry loop of the supervised
thread, the registry of active threads, frozen launch, move, join and
destruction) and `src/Event.h` (`BinderEvent`, `SingleEvent`, `Event`,
`SingleWinEvent`), followed by theorems about the embedded definitions.

Conventions of the embedding.

* Objects live in a store and are named by natural numbers (their addresses):
  `State.sig` holds the `SingleEvent`/`Event` objects, `State.mux` the
  `BinderEvent` objects.
* A call that blocks is given the `set()` calls other threads perform while
  it is blocked as an explicit list; each of them runs to completion before
  the blocked thread looks again.  A call that never returns yields `none`.
  Where the moment at which a waiter runs inside a `set()` matters, the
  schedule is given step by step (`EnvStep`): a `set()` is the step that
  notifies the bound binder events followed by the step that stores the flag.
* `clock::duration` and `clock::time_point` are 64-bit signed tick counts:
  integers, wrapped into the signed 64-bit range by `wrap64` at every
  subtraction the source performs.
* `clock::now()` is an oracle `clk : Nat → Int`: `clk k` is the value of the
  `k`-th reading made inside the waiting loop.
* The supervisors of a process form a `World`: the `SafeThread` objects by
  address, the registry, the store of start gates and the position of every
  owned thread.  A run is a list of `SupOp`, each a member function that has
  returned or one scheduling step of an owned thread; an operation that does
  not return (it blocks, throws or terminates the process) yields `none`.
-/

namespace SafeThread

/-! ## `SafeThread.h`: the fault boundary and the retry loop -/

/-- The two fault classes built by the exception filter of
`try_catch_wrapper`. -/
inductive tracked_exception where
  | ccW_exception
  | SE_exception (nSE : Nat)
  deriving DecidableEq

/-- Exception code under which a C++ `throw` reaches the structured-exception
filter (`0xE06D7363`). -/
def cpp_exception_code : Nat := 0xE06D7363

/-- The filter lambda of `try_catch_wrapper`: wraps the fault according to its
code and hands it to `h`. -/
def handle_seh (h : tracked_exception → Bool) (code : Nat) : Bool :=
  if code = cpp_exception_code then h tracked_exception.ccW_exception
  else h (tracked_exception.SE_exception code)

/-- One call `try_catch_wrapper(f, h)`.  `f_result` is what the single
invocation `f()` does: `none` when it completes, `some code` when it raises a
fault with that exception code.  The result is `none` when `h` was not called
and `some r` when `h` was called and returned `r`. -/
def try_catch_wrapper (f_result : Option Nat) (h : tracked_exception → Bool) :
    Option Bool :=
  match f_result with
  | none => none
  | some code => some (handle_seh h code)

/-- Variables of the thread body of `WrapAndLaunch`: the local `reenter` and
the number of invocations of the callable made so far. -/
structure LoopState where
  reenter : Bool
  invocations : Nat
  deriving DecidableEq

/-- One pass through the body of the `do { ... } while (reenter)` loop.
`func k` is the behaviour of invocation number `k` (counted from `0`) of the
callable, `exception_handler k` the installed handler at that moment.  The
handler lambda assigns `reenter`; when the callable completes nothing assigns
it. -/
def loop_body (func : Nat → Option Nat)
    (exception_handler : Nat → tracked_exception → Bool) (s : LoopState) : LoopState :=
  match try_catch_wrapper (func s.invocations) (exception_handler s.invocations) with
  | some r => { reenter := r, invocations := s.invocations + 1 }
  | none => { reenter := s.reenter, invocations := s.invocations + 1 }

/-- The `do { ... } while (reenter)` loop, bounded by `fuel` passes.  The
result is the number of invocations made when the loop is left, `none` when
it is still running after `fuel` passes. -/
def run_loop (func : Nat → Option Nat)
    (exception_handler : Nat → tracked_exception → Bool) : Nat → LoopState → Option Nat
  | 0, _ => none
  | fuel + 1, s =>
    let s' := loop_body func exception_handler s
    if s'.reenter then run_loop func exception_handler fuel s' else some s'.invocations

/-- The thread body `wrapped` of an unfrozen `WrapAndLaunch`: `bool reenter =
false;` followed by the loop. -/
def wrapped (func : Nat → Option Nat)
    (exception_handler : Nat → tracked_exception → Bool) (fuel : Nat) : Option Nat :=
  run_loop func exception_handler fuel { reenter := false, invocations := 0 }

/-- A callable that throws a C++ exception on its first `n` invocations and
completes on every later one. -/
def faults_first (n : Nat) : Nat → Option Nat :=
  fun k => if k < n then some cpp_exception_code else none

/-- A handler that asks for a retry exactly when the fault is a wrapped C++
exception. -/
def retry_on_ccW : Nat → tracked_exception → Bool :=
  fun _ ex => ex = tracked_exception.ccW_exception

/-! ## `Event.h`: overflow-safe timeout arithmetic -/

/-- Largest tick count of the clock: `clock::time_point::max()` and
`clock::duration::max()`, `2^63 - 1`. -/
def time_point_max : Int := 9223372036854775807

/-- Reduction of an integer into the signed 64-bit range. -/
def wrap64 (x : Int) : Int :=
  (x + 9223372036854775808) % 18446744073709551616 - 9223372036854775808

/-- The loop `while ((t_max - d_wait) <= t_now) d_wait /= 2;` of
`wait_time_no_overflow`, bounded by `fuel` tests of its condition. -/
def halving_loop (t_now : Int) : Nat → Int → Option Int
  | 0, _ => none
  | fuel + 1, d_wait =>
    if wrap64 (time_point_max - d_wait) ≤ t_now then halving_loop t_now fuel (Int.tdiv d_wait 2)
    else some d_wait

/-- The lambda `wait_time_no_overflow` shared by `BinderEvent::wait_for` and
`SingleEvent::wait_for`, with `t_now` the value `clock::now()` returns inside
it.  A 64-bit `d_wait` is `0` after at most 64 halvings, so 65 tests of the
loop condition either leave the loop or find it spinning on `d_wait = 0`; the
latter is `none`. -/
def wait_time_no_overflow (t t_start t_now : Int) : Option Int :=
  let d_elapsed := wrap64 (t_now - t_start)
  let d_wait := if t > d_elapsed then wrap64 (t - d_elapsed) else 0
  halving_loop t_now 65 d_wait

/-! ## `Event.h`: the store of event objects -/

/-- Dynamic type of a condition-variable signal: the base class `SingleEvent`
or the derived class `Event`, which overrides `wait`, `wait_for`, `is_set` and
`reset`. -/
inductive SigKind where
  | SingleEvent
  | Event
  deriving DecidableEq

/-- Data members of a `BinderEvent` that the operations read or write. -/
structure BinderEventObj where
  event_is_set : Bool
  event_source : Option Nat
  deriving DecidableEq

/-- Data members of a `SingleEvent` (or `Event`) object, with its dynamic
type.  `bound_events` is the `std::unordered_set<BinderEvent*>`, kept as a list
without repetitions. -/
structure SingleEventObj where
  kind : SigKind
  event_is_set : Bool
  bound_events : List Nat

/-- The objects reachable by the operations: signals and binder events by
address. -/
structure State where
  sig : Nat → SingleEventObj
  mux : Nat → BinderEventObj

/-- Replace the signal object at address `i`. -/
def State.put_sig (st : State) (i : Nat) (o : SingleEventObj) : State :=
  { st with sig := fun j => if j = i then o else st.sig j }

/-- Replace the binder event at address `m`. -/
def State.put_mux (st : State) (m : Nat) (o : BinderEventObj) : State :=
  { st with mux := fun j => if j = m then o else st.mux j }

/-- Store to the atomic `event_is_set` of the signal at `i`. -/
def State.store_flag (st : State) (i : Nat) (b : Bool) : State :=
  st.put_sig i { st.sig i with event_is_set := b }

/-- The body of `BinderEvent::set(source)`: both stores are unconditional. -/
def BinderEvent.set (st : State) (m : Nat) (source : Nat) : State :=
  st.put_mux m { event_is_set := true, event_source := some source }

/-- The body of `SingleEvent::bind_events(ev)`: `bound_events.insert(ev)`. -/
def SingleEvent.bind_events (st : State) (i : Nat) (ev : Nat) : State :=
  st.put_sig i { st.sig i with bound_events := (st.sig i).bound_events.insert ev }

/-- The body of `SingleEvent::unbind_events(ev)`: `bound_events.erase(ev)`. -/
def SingleEvent.unbind_events (st : State) (i : Nat) (ev : Nat) : State :=
  st.put_sig i { st.sig i with bound_events := (st.sig i).bound_events.erase ev }

/-- The first block of `SingleEvent::set()`: `ev->set(this)` for every bound
binder event. -/
def SingleEvent.notify_bound (st : State) (i : Nat) : State :=
  (st.sig i).bound_events.foldl (fun s ev => BinderEvent.set s ev i) st

/-- The body of `SingleEvent::set()` (not virtual): the bound binder events are
set first, the own flag is stored afterwards. -/
def SingleEvent.set (st : State) (i : Nat) : State :=
  (SingleEvent.notify_bound st i).store_flag i true

/-- The body of `SingleEvent::is_set()`: a load. -/
def SingleEvent.is_set (st : State) (i : Nat) : Bool × State :=
  ((st.sig i).event_is_set, st)

/-- The body of `SingleEvent::reset()`: empty, "SingleEvent is not
resettable". -/
def SingleEvent.reset (st : State) (_i : Nat) : State :=
  st

/-- The body of `Event::is_set()`: load, then store `false`. -/
def Event.is_set (st : State) (i : Nat) : Bool × State :=
  ((st.sig i).event_is_set, st.store_flag i false)

/-- The body of `Event::reset()`: store `false`. -/
def Event.reset (st : State) (i : Nat) : State :=
  st.store_flag i false

/-- The virtual call `ev->is_set()`. -/
def Signal.is_set (st : State) (i : Nat) : Bool × State :=
  match (st.sig i).kind with
  | SigKind.SingleEvent => SingleEvent.is_set st i
  | SigKind.Event => Event.is_set st i

/-- The virtual call `ev->reset()`. -/
def Signal.reset (st : State) (i : Nat) : State :=
  match (st.sig i).kind with
  | SigKind.SingleEvent => SingleEvent.reset st i
  | SigKind.Event => Event.reset st i

/-- The `set()` calls of other threads in `env`, one after the other, each run
to completion (both of its steps) before anything else happens.  The
schedules in which a waiter runs between the two steps of a `set()` are those
of `EnvStep` and `apply_steps`. -/
def apply_sets (st : State) (env : List Nat) : State :=
  env.foldl SingleEvent.set st

/-! ## `Event.h`: waiting on one object -/

/-- The body of `cv.wait(lock, pred)`: returns at once when `pred` holds;
otherwise the thread blocks while the calls in `env` happen and returns if
`pred` holds then; if it still does not, the thread stays blocked. -/
def cv_wait (pred : State → Bool) (st : State) (env : List Nat) : Option State :=
  if pred st then some st
  else if pred (apply_sets st env) then some (apply_sets st env) else none

/-- The loop
`while (pred == false && (d_wait = wait_time_no_overflow()).count() > 0)
   pred = cv.wait_for(lock, d_wait, p);`
that `BinderEvent::wait_for` and `SingleEvent::wait_for` share, `p` being the
test of the respective `event_is_set`.  Pass `k` reads the clock (`clk k`);
`cv.wait_for` returns `true` at once when `p` holds, otherwise the calls in
`env k` happen during the wait and it returns the value of `p` after them.
The result is the final `pred`, the number of timed waits made and the state;
`none` when the loop is still running after `fuel` passes or the halving loop
does not end. -/
def timed_wait_loop (p : State → Bool) (t t_start : Int) (clk : Nat → Int)
    (env : Nat → List Nat) : Nat → Nat → State → Option (Bool × Nat × State)
  | 0, _, _ => none
  | fuel + 1, k, st =>
    match wait_time_no_overflow t t_start (clk k) with
    | none => none
    | some d_wait =>
      if d_wait > 0 then
        if p st then some (true, k + 1, st)
        else if p (apply_sets st (env k)) then some (true, k + 1, apply_sets st (env k))
        else timed_wait_loop p t t_start clk env fuel (k + 1) (apply_sets st (env k))
      else some (false, k, st)

/-- The body of `BinderEvent::wait(&ev_source)`. -/
def BinderEvent.wait (st : State) (m : Nat) (env : List Nat) : Option (State × Option Nat) :=
  match cv_wait (fun s => (s.mux m).event_is_set) st env with
  | none => none
  | some st1 => some (st1, (st1.mux m).event_source)

/-- The body of `BinderEvent::wait_for(t, &ev_source)`; `t_start` is the clock
value read on entry.  The result is `(pred, ev_source, waits, state)`. -/
def BinderEvent.wait_for (st : State) (m : Nat) (t t_start : Int) (clk : Nat → Int)
    (env : Nat → List Nat) (fuel : Nat) : Option (Bool × Option Nat × Nat × State) :=
  match timed_wait_loop (fun s => (s.mux m).event_is_set) t t_start clk env fuel 0 st with
  | none => none
  | some (pred, k, st1) =>
    some (pred, (if pred then (st1.mux m).event_source else none), k, st1)

/-- The body of `SingleEvent::wait()`. -/
def SingleEvent.wait (st : State) (i : Nat) (env : List Nat) : Option State :=
  cv_wait (fun s => (s.sig i).event_is_set) st env

/-- The body of `SingleEvent::wait_for(t)`.  The result is `(pred, waits,
state)`. -/
def SingleEvent.wait_for (st : State) (i : Nat) (t t_start : Int) (clk : Nat → Int)
    (env : Nat → List Nat) (fuel : Nat) : Option (Bool × Nat × State) :=
  timed_wait_loop (fun s => (s.sig i).event_is_set) t t_start clk env fuel 0 st

/-- The body of `Event::wait()`: the base wait, then store `false`. -/
def Event.wait (st : State) (i : Nat) (env : List Nat) : Option State :=
  match SingleEvent.wait st i env with
  | none => none
  | some st1 => some (st1.store_flag i false)

/-- The body of `Event::wait_for(t)`: the base timed wait, then store `false`
whatever it returned. -/
def Event.wait_for (st : State) (i : Nat) (t t_start : Int) (clk : Nat → Int)
    (env : Nat → List Nat) (fuel : Nat) : Option (Bool × Nat × State) :=
  match SingleEvent.wait_for st i t t_start clk env fuel with
  | none => none
  | some (pred, k, st1) => some (pred, k, st1.store_flag i false)

/-- The virtual call `ev->wait()`. -/
def Signal.wait (st : State) (i : Nat) (env : List Nat) : Option State :=
  match (st.sig i).kind with
  | SigKind.SingleEvent => SingleEvent.wait st i env
  | SigKind.Event => Event.wait st i env

/-- The virtual call `ev->wait_for(t)`. -/
def Signal.wait_for (st : State) (i : Nat) (t t_start : Int) (clk : Nat → Int)
    (env : Nat → List Nat) (fuel : Nat) : Option (Bool × Nat × State) :=
  match (st.sig i).kind with
  | SigKind.SingleEvent => SingleEvent.wait_for st i t t_start clk env fuel
  | SigKind.Event => Event.wait_for st i t t_start clk env fuel

/-! ## `Event.h`: waiting on several signals -/

/-- The first `for` loop of `wait_multiple_events`, with `m` the address of
the local `shared_ev`: a candidate whose `is_set()` answers `true` sets
`shared_ev` and ends the loop (`break`), every candidate before it is bound.
The second component is the local `ev_source` when the loop assigned it. -/
def scan_events (m : Nat) : List Nat → State → State × Option Nat
  | [], st => (st, none)
  | ev :: rest, st =>
    if (Signal.is_set st ev).1 then (BinderEvent.set (Signal.is_set st ev).2 m ev, some ev)
    else scan_events m rest (SingleEvent.bind_events (Signal.is_set st ev).2 ev m)

/-- The last `for` loop of `wait_multiple_events`: `ev->unbind_events(&shared_ev)`
for every candidate. -/
def unbind_all (m : Nat) (events : List Nat) (st : State) : State :=
  events.foldl (fun s ev => SingleEvent.unbind_events s ev m) st

/-- The state in which the local `BinderEvent shared_ev;` has been constructed
at address `m`. -/
def new_shared_ev (st : State) (m : Nat) : State :=
  st.put_mux m { event_is_set := false, event_source := none }

/-- The body of `SingleEvent::wait_multiple_events(events)`.  `m` is the address of
the local `shared_ev`, `env` the `set()` calls made by other threads while the
caller is blocked in `shared_ev.wait`.  The result is the final state and the
returned pointer; `none` when the call does not return. -/
def SingleEvent.wait_multiple_events (st : State) (m : Nat) (events : List Nat)
    (env : List Nat) : Option (State × Nat) :=
  match BinderEvent.wait (scan_events m events (new_shared_ev st m)).1 m env with
  | none => none
  | some (_, none) => none
  | some (st2, some ev_source) =>
    some (unbind_all m events (Signal.reset st2 ev_source), ev_source)

/-- The body of `SingleEvent::wait_multiple_events(events, t)`.  The returned pointer
is `none` for `nullptr`. -/
def SingleEvent.wait_multiple_events_for (st : State) (m : Nat) (events : List Nat)
    (t t_start : Int) (clk : Nat → Int) (env : Nat → List Nat) (fuel : Nat) :
    Option (State × Option Nat) :=
  match BinderEvent.wait_for (scan_events m events (new_shared_ev st m)).1 m t t_start clk env
      fuel with
  | none => none
  | some (_, none, _, st2) => some (unbind_all m events st2, none)
  | some (_, some ev_source, _, st2) =>
    some (unbind_all m events (Signal.reset st2 ev_source), some ev_source)

/-- One observation of a signal by its owner thread. -/
inductive Observation where
  | is_set
  | wait
  deriving DecidableEq

/-- Perform one observation through the virtual interface, no other thread
calling `set()` meanwhile.  A `wait()` that returns has observed `true`. -/
def observe (st : State) (i : Nat) : Observation → Option (Bool × State)
  | Observation.is_set => some (Signal.is_set st i)
  | Observation.wait =>
    match Signal.wait st i [] with
    | none => none
    | some st1 => some (true, st1)

/-- Perform the observations one after the other and collect what they saw. -/
def observe_all (i : Nat) : List Observation → State → Option (List Bool × State)
  | [], st => some ([], st)
  | o :: rest, st =>
    match observe st i o with
    | none => none
    | some (b, st1) =>
      match observe_all i rest st1 with
      | none => none
      | some (bs, st2) => some (b :: bs, st2)

/-! ## `Event.h`: the handle-based `SingleWinEvent` -/

/-- The kernel event object behind a `HANDLE`, as the platform documents it:
created manual-reset or auto-reset, signaled or not. -/
structure WinEventObj where
  manual_reset : Bool
  signaled : Bool
  deriving DecidableEq

/-- Results of `WaitForSingleObject` that the source distinguishes. -/
inductive WaitResult where
  | WAIT_OBJECT_0
  | WAIT_TIMEOUT
  | WAIT_FAILED
  deriving DecidableEq

/-- Platform call `WaitForSingleObject(h, ms)` with no other thread touching
the object; `h = none` is the `NULL` handle, `ms = none` is `INFINITE`.  A
successful wait on an auto-reset object leaves it non-signaled.  `none` when
the call never returns. -/
def WaitForSingleObject (h : Option WinEventObj) (ms : Option Nat) :
    Option (WaitResult × Option WinEventObj) :=
  match h with
  | none => some (WaitResult.WAIT_FAILED, none)
  | some o =>
    if o.signaled then
      some (WaitResult.WAIT_OBJECT_0, some (if o.manual_reset then o else { o with signaled := false }))
    else
      match ms with
      | none => none
      | some _ => some (WaitResult.WAIT_TIMEOUT, some o)

/-- Platform call `SetEvent(h)`. -/
def SetEvent (h : Option WinEventObj) : Bool × Option WinEventObj :=
  match h with
  | none => (false, none)
  | some o => (true, some { o with signaled := true })

/-- Platform call `ResetEvent(h)`. -/
def ResetEvent (h : Option WinEventObj) : Bool × Option WinEventObj :=
  match h with
  | none => (false, none)
  | some o => (true, some { o with signaled := false })

/-- The member `hEvent` after the constructor `SingleWinEvent()` when
`CreateEvent(NULL, true, false, NULL)` succeeded. -/
def SingleWinEvent.create : Option WinEventObj :=
  some { manual_reset := true, signaled := false }

/-- The body of `SingleWinEvent::set()`. -/
def SingleWinEvent.set (hEvent : Option WinEventObj) : Bool × Option WinEventObj :=
  SetEvent hEvent

/-- The body of `SingleWinEvent::reset()`. -/
def SingleWinEvent.reset (hEvent : Option WinEventObj) : Bool × Option WinEventObj :=
  ResetEvent hEvent

/-- The body of `SingleWinEvent::is_set()`: a wait with timeout `0`. -/
def SingleWinEvent.is_set (hEvent : Option WinEventObj) : Bool × Option WinEventObj :=
  match WaitForSingleObject hEvent (some 0) with
  | none => (false, hEvent)
  | some (res, h1) =>
    if res = WaitResult.WAIT_FAILED ∨ res = WaitResult.WAIT_TIMEOUT then (false, h1) else (true, h1)

/-- The body of `SingleWinEvent::wait()`. -/
def SingleWinEvent.wait (hEvent : Option WinEventObj) : Option (Bool × Option WinEventObj) :=
  match WaitForSingleObject hEvent none with
  | none => none
  | some (res, h1) => if res = WaitResult.WAIT_FAILED then some (false, h1) else some (true, h1)

/-- One observation of a `SingleWinEvent`. -/
def SingleWinEvent.observe (hEvent : Option WinEventObj) :
    Observation → Option (Bool × Option WinEventObj)
  | Observation.is_set => some (SingleWinEvent.is_set hEvent)
  | Observation.wait => SingleWinEvent.wait hEvent

/-- Observations of a `SingleWinEvent`, one after the other. -/
def SingleWinEvent.observe_all :
    List Observation → Option WinEventObj → Option (List Bool × Option WinEventObj)
  | [], h => some ([], h)
  | o :: rest, h =>
    match SingleWinEvent.observe h o with
    | none => none
    | some (b, h1) =>
      match SingleWinEvent.observe_all rest h1 with
      | none => none
      | some (bs, h2) => some (b :: bs, h2)

/-! ## Environments and concrete inputs -/

/-- The assumption on the clock under which a timed wait with timeout `t`
started at `t_start` is studied: readings count ticks from the epoch of the
clock (`0 ≤ t_start`), the first reading inside the loop is not before
`t_start`, no reading is the maximum, and the clock advances by at least the
chunk across each timed wait: the reading that follows a wait for `d` is at
least `d` later. -/
def clock_advances (t t_start : Int) (clk : Nat → Int) : Prop :=
  0 ≤ t_start ∧ t_start ≤ clk 0 ∧ (∀ k, clk k < time_point_max) ∧
    ∀ k d, wait_time_no_overflow t t_start (clk k) = some d → clk k + d ≤ clk (k + 1)

/-- The environment in which no other thread calls `set()`. -/
def no_sets : Nat → List Nat :=
  fun _ => []

/-- The state in which every object is freshly constructed: flags `false`,
no bindings, no source; `kinds` gives the dynamic type of each signal. -/
def State.init (kinds : Nat → SigKind) : State :=
  { sig := fun i => { kind := kinds i, event_is_set := false, bound_events := [] }
    mux := fun _ => { event_is_set := false, event_source := none } }

/-- Every signal is a plain `SingleEvent`. -/
def all_single : Nat → SigKind :=
  fun _ => SigKind.SingleEvent

/-- Every signal is an auto-reset `Event`. -/
def all_auto : Nat → SigKind :=
  fun _ => SigKind.Event

/-- A clock that reads `0` first and one tick before its maximum from then on. -/
def late_clock : Nat → Int :=
  fun k => if k = 0 then 0 else time_point_max - 1

/-- A clock that reads `0` first and `10` from then on. -/
def step_clock : Nat → Int :=
  fun k => if k = 0 then 0 else 10

/-- The next observation of signal `i` by the same thread sees `false`: an
`is_set()` answers `false`, and a `wait_for(t)` during which nobody sets the
signal returns `false` after finitely many timed waits. -/
def next_observes_false (st : State) (i : Nat) : Prop :=
  (Signal.is_set st i).1 = false ∧
    ∀ (t t_start : Int) (clk : Nat → Int) (env : Nat → List Nat),
      t ≤ time_point_max → clock_advances t t_start clk → (∀ k, i ∉ env k) →
      ∃ fuel0 waits st1, ∀ fuel, fuel0 ≤ fuel →
        Signal.wait_for st i t t_start clk env fuel = some (false, waits, st1)


/-! ## `Event.h`: `set()` step by step -/

/-- The two steps that a call `set()` of another thread makes on the state of
signal `i`, each of them atomic: `notify` is the first block of
`SingleEvent::set` (`ev->set(this)` for every bound binder event, under
`boundEv_mtx`), `store` is the statement `event_is_set.store(true, ...)` that
follows it. -/
inductive EnvStep where
  | notify (i : Nat)
  | store (i : Nat)
  deriving DecidableEq

/-- Perform one step of another thread. -/
def EnvStep.apply (st : State) : EnvStep → State
  | EnvStep.notify i => SingleEvent.notify_bound st i
  | EnvStep.store i => st.store_flag i true

/-- Perform the steps one after the other. -/
def apply_steps (st : State) (steps : List EnvStep) : State :=
  steps.foldl EnvStep.apply st

/-- The steps of one call `set()` on signal `i`, in the order of the source:
the bound binder events are notified, then the own flag is stored. -/
def SingleEvent.set_steps (i : Nat) : List EnvStep :=
  [EnvStep.notify i, EnvStep.store i]

/-- The body of `SingleEvent::wait_multiple_events(events)` under a schedule
given step by step.  `before` holds the steps of other threads that happen
until `shared_ev.wait` finds the binder event set and reads its source (with
the binder event still unset after them the caller stays blocked: `none`),
`mid` the steps between that read and `ev_source->reset()`, `after` the steps
between the reset and the unbinding.  `SingleEvent.wait_multiple_events` is the
schedule in which every `set()` is complete in `before`. -/
def SingleEvent.wait_multiple_events_sched (st : State) (m : Nat) (events : List Nat)
    (before mid after : List EnvStep) : Option (State × Nat) :=
  if ((apply_steps (scan_events m events (new_shared_ev st m)).1 before).mux m).event_is_set then
    match ((apply_steps (scan_events m events (new_shared_ev st m)).1 before).mux m).event_source
      with
    | none => none
    | some ev_source =>
      some (unbind_all m events
        (apply_steps
          (Signal.reset
            (apply_steps (apply_steps (scan_events m events (new_shared_ev st m)).1 before) mid)
            ev_source)
          after), ev_source)
  else none

/-! ## `SafeThread.h`: supervisors, their threads and the registry -/

/-- Data members of a `SafeThread` object that launch, move, unfreeze, join
and destruction read or write: `thread` (the identifier of the owned thread of
execution, `none` when `thread.joinable()` is false), the atomic pointer
`unfreeze_event` and whether the `unique_ptr` `owner` is non-null. -/
structure SafeThreadObj where
  thread : Option Nat
  unfreeze_event : Option Nat
  owner : Bool
  deriving DecidableEq

/-- The members as their default initialisers leave them. -/
def SafeThreadObj.fresh : SafeThreadObj :=
  { thread := none, unfreeze_event := none, owner := false }

/-- Position of an owned thread inside the lambda `wrapped`: before the test
of the captured `p_unfreeze_ev`, inside the `do ... while (reenter)` loop with
its variables, or past the loop with the final number of invocations. -/
inductive ThreadPc where
  | at_gate (p_unfreeze_ev : Option Nat)
  | in_loop (s : LoopState)
  | ended (invocations : Nat)
  deriving DecidableEq

/-- Number of invocations of the callable a thread has made so far. -/
def ThreadPc.invocations : ThreadPc → Nat
  | ThreadPc.at_gate _ => 0
  | ThreadPc.in_loop s => s.invocations
  | ThreadPc.ended n => n

/-- The process: `SafeThread` objects by address, the set `active_threads` of
the shared registry (a list without repetitions), the store holding the start
gates, the position of every thread of execution, and the next unused value
for `new SingleEvent` addresses and thread identifiers. -/
structure World where
  obj : Nat → SafeThreadObj
  active_threads : List Nat
  events : State
  pc : Nat → ThreadPc
  next : Nat

/-- The process before any supervisor exists. -/
def World.init : World :=
  { obj := fun _ => SafeThreadObj.fresh
    active_threads := []
    events := State.init all_single
    pc := fun _ => ThreadPc.ended 0
    next := 0 }

/-- Replace the `SafeThread` object at address `x`. -/
def World.put_obj (w : World) (x : Nat) (o : SafeThreadObj) : World :=
  { w with obj := fun y => if y = x then o else w.obj y }

/-- Replace the position of thread `tid`. -/
def World.put_pc (w : World) (tid : Nat) (p : ThreadPc) : World :=
  { w with pc := fun j => if j = tid then p else w.pc j }

/-- The body of `SharedInst::add_thread(t)`: `active_threads.insert(t)`. -/
def SharedInst.add_thread (active_threads : List Nat) (t : Nat) : List Nat :=
  active_threads.insert t

/-- The body of `SharedInst::remove_thread(t)`. -/
def SharedInst.remove_thread (active_threads : List Nat) (t : Nat) : List Nat :=
  if active_threads.isEmpty then active_threads else active_threads.erase t

/-- The body of `SafeThread::unfreeze()`. -/
def unfreeze (w : World) (this : Nat) : World :=
  match (w.obj this).unfreeze_event with
  | none => w
  | some ev =>
    { w with events := SingleEvent.set w.events ev,
             obj := fun y => if y = this then { w.obj this with unfreeze_event := none }
                             else w.obj y }

/-- The body of `WrapAndLaunch(F&& f, Args&&... args)`: `owner` is created, the
pointer `unfreeze_event` is loaded into the capture `p_unfreeze_ev`, the
thread is started at the top of `wrapped`, and `this` is added to the
registry. -/
def WrapAndLaunch (w : World) (this : Nat) : World :=
  { w with
    obj := fun y => if y = this then { w.obj this with owner := true, thread := some w.next }
                    else w.obj y,
    pc := fun j => if j = w.next then ThreadPc.at_gate (w.obj this).unfreeze_event else w.pc j,
    next := w.next + 1,
    active_threads := SharedInst.add_thread w.active_threads this }

/-- The statement `unfreeze_event.store(new SingleEvent, ...)`: a fresh
`SingleEvent` is constructed at the next unused address. -/
def store_new_gate (w : World) (this : Nat) : World :=
  { w with
    events := w.events.put_sig w.next
      { kind := SigKind.SingleEvent, event_is_set := false, bound_events := [] },
    obj := fun y => if y = this then { w.obj this with unfreeze_event := some w.next }
                    else w.obj y,
    next := w.next + 1 }

/-- The body of `WrapAndLaunch(Frozen launch_frozen, Args&&... args)`. -/
def WrapAndLaunch_Frozen (w : World) (this : Nat) (launch_frozen : Bool) : World :=
  if launch_frozen then WrapAndLaunch (store_new_gate w this) this
  else unfreeze (WrapAndLaunch w this) this

/-- The constructor `SafeThread(Args&&... args)` at address `this`: the members
take their default values, then `WrapAndLaunch` runs, through the `Frozen`
overload when a `Frozen` argument is among `args` (`frozen = some b`). -/
def construct (w : World) (this : Nat) (frozen : Option Bool) : World :=
  match frozen with
  | none => WrapAndLaunch (w.put_obj this SafeThreadObj.fresh) this
  | some b => WrapAndLaunch_Frozen (w.put_obj this SafeThreadObj.fresh) this b

/-- The default constructor `SafeThread() {}`. -/
def construct_default (w : World) (this : Nat) : World :=
  w.put_obj this SafeThreadObj.fresh

/-- The body of `move_thread(SafeThread&& t)`.  The move assignment of
`std::thread` terminates the process when `this->thread` is joinable, and
`*owner = *this` dereferences the pointer taken from `t`, which is null when
`t` was never launched or was moved from: both are `none`.  The pointer
`t.unfreeze_event` is copied, not cleared. -/
def move_thread (w : World) (this t : Nat) : Option World :=
  if (w.obj this).thread.isSome then none
  else if (w.obj t).owner = false then none
  else
    some { w with
      obj := fun y =>
        if y = this then
          { thread := (w.obj t).thread, unfreeze_event := (w.obj t).unfreeze_event, owner := true }
        else if y = t then { w.obj t with thread := none, owner := false }
        else w.obj y,
      active_threads :=
        SharedInst.add_thread (SharedInst.remove_thread w.active_threads t) this }

/-- The call `thread.join()` of `std::thread`, seen when it returns: `none`
when the thread is not joinable (the call throws) or has not ended (the call
has not returned). -/
def thread_join (w : World) (this : Nat) : Option World :=
  match (w.obj this).thread with
  | none => none
  | some tid =>
    match w.pc tid with
    | ThreadPc.ended _ => some (w.put_obj this { w.obj this with thread := none })
    | _ => none

/-- The body of `SafeThread::join()`. -/
def join (w : World) (this : Nat) : Option World :=
  match thread_join w this with
  | none => none
  | some w1 =>
    some { w1 with active_threads := SharedInst.remove_thread w1.active_threads this }

/-- The body of the destructor of `SafeThread`. -/
def destroy (w : World) (this : Nat) : Option World :=
  if (w.obj this).thread.isSome then
    match thread_join w this with
    | none => none
    | some w1 =>
      some { w1 with active_threads := SharedInst.remove_thread w1.active_threads this }
  else some { w with active_threads := SharedInst.remove_thread w.active_threads this }

/-- One scheduling step of thread `tid` inside `wrapped`.  At the gate the
thread passes when the captured pointer is null or when `p_unfreeze_ev->wait()`
returns, and stays where it is while that wait blocks.  In the loop it makes
one pass: `func tid k` is the behaviour of invocation `k` of its callable,
`exception_handler tid k` the handler found at that moment.  The `delete` of
the gate after the wait changes nothing that is represented here. -/
def thread_step (func : Nat → Nat → Option Nat)
    (exception_handler : Nat → Nat → tracked_exception → Bool) (w : World) (tid : Nat) : World :=
  match w.pc tid with
  | ThreadPc.at_gate none => w.put_pc tid (ThreadPc.in_loop { reenter := false, invocations := 0 })
  | ThreadPc.at_gate (some p_unfreeze_ev) =>
    match Signal.wait w.events p_unfreeze_ev [] with
    | none => w
    | some ev1 =>
      { w with events := ev1,
               pc := fun j => if j = tid then
                   ThreadPc.in_loop { reenter := false, invocations := 0 } else w.pc j }
  | ThreadPc.in_loop s =>
    w.put_pc tid
      (if (loop_body (func tid) (exception_handler tid) s).reenter
        then ThreadPc.in_loop (loop_body (func tid) (exception_handler tid) s)
        else ThreadPc.ended (loop_body (func tid) (exception_handler tid) s).invocations)
  | ThreadPc.ended _ => w

/-- The operations of a run. -/
inductive SupOp where
  | construct (this : Nat) (frozen : Option Bool)
  | construct_default (this : Nat)
  | move_construct (this t : Nat)
  | move_assign (this t : Nat)
  | unfreeze (this : Nat)
  | join (this : Nat)
  | destroy (this : Nat)
  | step (tid : Nat)
  deriving DecidableEq

/-- Whether the operation is a call of `unfreeze()`. -/
def SupOp.is_unfreeze : SupOp → Bool
  | SupOp.unfreeze _ => true
  | _ => false

/-- Perform one operation. -/
def apply_op (func : Nat → Nat → Option Nat)
    (exception_handler : Nat → Nat → tracked_exception → Bool) (w : World) : SupOp → Option World
  | SupOp.construct this frozen => some (construct w this frozen)
  | SupOp.construct_default this => some (construct_default w this)
  | SupOp.move_construct this t => move_thread (w.put_obj this SafeThreadObj.fresh) this t
  | SupOp.move_assign this t => move_thread w this t
  | SupOp.unfreeze this => some (unfreeze w this)
  | SupOp.join this => join w this
  | SupOp.destroy this => destroy w this
  | SupOp.step tid => some (thread_step func exception_handler w tid)

/-- Perform the operations one after the other. -/
def run (func : Nat → Nat → Option Nat)
    (exception_handler : Nat → Nat → tracked_exception → Bool) : List SupOp → World → Option World
  | [], w => some w
  | op :: ops, w =>
    match apply_op func exception_handler w op with
    | none => none
    | some w1 => run func exception_handler ops w1

/-- Callables that complete at every invocation. -/
def all_complete : Nat → Nat → Option Nat :=
  fun _ _ => none

/-- Handlers that never ask for a retry. -/
def never_retry : Nat → Nat → tracked_exception → Bool :=
  fun _ _ _ => false

/-! ## How the operations act on the store -/

@[simp] lemma put_mux_sig (st : State) (m : Nat) (o : BinderEventObj) :
    (st.put_mux m o).sig = st.sig := rfl

@[simp] lemma put_sig_mux (st : State) (i : Nat) (o : SingleEventObj) :
    (st.put_sig i o).mux = st.mux := rfl

@[simp] lemma put_sig_sig (st : State) (i j : Nat) (o : SingleEventObj) :
    (st.put_sig i o).sig j = if j = i then o else st.sig j := rfl

@[simp] lemma put_mux_mux (st : State) (m j : Nat) (o : BinderEventObj) :
    (st.put_mux m o).mux j = if j = m then o else st.mux j := rfl

@[simp] lemma store_flag_mux (st : State) (i : Nat) (b : Bool) :
    (st.store_flag i b).mux = st.mux := rfl

lemma store_flag_sig (st : State) (i j : Nat) (b : Bool) :
    (st.store_flag i b).sig j =
      if j = i then { st.sig i with event_is_set := b } else st.sig j := rfl

@[simp] lemma store_flag_flag (st : State) (i j : Nat) (b : Bool) :
    ((st.store_flag i b).sig j).event_is_set =
      if j = i then b else (st.sig j).event_is_set := by
  rw [store_flag_sig]; split <;> rfl

@[simp] lemma store_flag_bound (st : State) (i j : Nat) (b : Bool) :
    ((st.store_flag i b).sig j).bound_events = (st.sig j).bound_events := by
  rw [store_flag_sig]; split
  · next h => subst h; rfl
  · rfl

@[simp] lemma store_flag_kind (st : State) (i j : Nat) (b : Bool) :
    ((st.store_flag i b).sig j).kind = (st.sig j).kind := by
  rw [store_flag_sig]; split
  · next h => subst h; rfl
  · rfl

@[simp] lemma BinderEvent_set_sig (st : State) (m src : Nat) :
    (BinderEvent.set st m src).sig = st.sig := rfl

@[simp] lemma BinderEvent_set_mux (st : State) (m src j : Nat) :
    (BinderEvent.set st m src).mux j =
      if j = m then { event_is_set := true, event_source := some src } else st.mux j := rfl

/-- Setting the binder events of a list touches no signal. -/
lemma foldl_set_sig (i : Nat) (l : List Nat) (st : State) :
    (l.foldl (fun s ev => BinderEvent.set s ev i) st).sig = st.sig := by
  induction l generalizing st with
  | nil => rfl
  | cons a l ih => simp [List.foldl_cons, ih]

/-- Setting the binder events of a list: those in the list are set with
source `i`, the others are untouched. -/
lemma foldl_set_mux (i : Nat) (l : List Nat) (st : State) (j : Nat) :
    (l.foldl (fun s ev => BinderEvent.set s ev i) st).mux j =
      if j ∈ l then { event_is_set := true, event_source := some i } else st.mux j := by
  induction l generalizing st with
  | nil => simp
  | cons a l ih =>
    rw [List.foldl_cons, ih]
    by_cases h1 : j ∈ l
    · simp [h1]
    · by_cases h2 : j = a
      · simp [h2]
      · simp [h1, h2]

@[simp] lemma notify_bound_sig (st : State) (i : Nat) :
    (SingleEvent.notify_bound st i).sig = st.sig :=
  foldl_set_sig i _ st

lemma notify_bound_mux (st : State) (i j : Nat) :
    (SingleEvent.notify_bound st i).mux j =
      if j ∈ (st.sig i).bound_events then { event_is_set := true, event_source := some i }
      else st.mux j :=
  foldl_set_mux i _ st j

@[simp] lemma set_flag (st : State) (i j : Nat) :
    ((SingleEvent.set st i).sig j).event_is_set =
      if j = i then true else (st.sig j).event_is_set := by
  simp [SingleEvent.set]

@[simp] lemma set_bound (st : State) (i j : Nat) :
    ((SingleEvent.set st i).sig j).bound_events = (st.sig j).bound_events := by
  simp [SingleEvent.set]

@[simp] lemma set_kind (st : State) (i j : Nat) :
    ((SingleEvent.set st i).sig j).kind = (st.sig j).kind := by
  simp [SingleEvent.set]

lemma set_mux (st : State) (i j : Nat) :
    (SingleEvent.set st i).mux j =
      if j ∈ (st.sig i).bound_events then { event_is_set := true, event_source := some i }
      else st.mux j := by
  simp [SingleEvent.set, notify_bound_mux]

@[simp] lemma apply_sets_nil (st : State) : apply_sets st [] = st := rfl

lemma apply_sets_cons (st : State) (a : Nat) (l : List Nat) :
    apply_sets st (a :: l) = apply_sets (SingleEvent.set st a) l := rfl

@[simp] lemma apply_sets_bound (st : State) (env : List Nat) (j : Nat) :
    ((apply_sets st env).sig j).bound_events = (st.sig j).bound_events := by
  induction env generalizing st with
  | nil => rfl
  | cons a l ih => rw [apply_sets_cons, ih, set_bound]

@[simp] lemma apply_sets_kind (st : State) (env : List Nat) (j : Nat) :
    ((apply_sets st env).sig j).kind = (st.sig j).kind := by
  induction env generalizing st with
  | nil => rfl
  | cons a l ih => rw [apply_sets_cons, ih, set_kind]

/-- A signal that nobody sets keeps its flag. -/
lemma apply_sets_flag_of_not_mem (st : State) (env : List Nat) (j : Nat) (h : j ∉ env) :
    ((apply_sets st env).sig j).event_is_set = (st.sig j).event_is_set := by
  induction env generalizing st with
  | nil => rfl
  | cons a l ih =>
    rw [apply_sets_cons, ih _ (fun hm => h (List.mem_cons_of_mem _ hm)), set_flag]
    have : j ≠ a := fun e => h (e ▸ List.mem_cons_self _ _)
    simp [this]

@[simp] lemma is_set_bound (st : State) (i j : Nat) :
    (((Signal.is_set st i).2).sig j).bound_events = (st.sig j).bound_events := by
  unfold Signal.is_set; split <;> simp [SingleEvent.is_set, Event.is_set]

@[simp] lemma is_set_kind (st : State) (i j : Nat) :
    (((Signal.is_set st i).2).sig j).kind = (st.sig j).kind := by
  unfold Signal.is_set; split <;> simp [SingleEvent.is_set, Event.is_set]

@[simp] lemma is_set_mux (st : State) (i : Nat) :
    ((Signal.is_set st i).2).mux = st.mux := by
  unfold Signal.is_set; split <;> simp [SingleEvent.is_set, Event.is_set]

@[simp] lemma is_set_fst (st : State) (i : Nat) :
    (Signal.is_set st i).1 = (st.sig i).event_is_set := by
  unfold Signal.is_set; split <;> simp [SingleEvent.is_set, Event.is_set]

/-- An `is_set()` that answers `false` leaves every flag as it was. -/
lemma is_set_flag_of_false (st : State) (i j : Nat) (h : (st.sig i).event_is_set = false) :
    (((Signal.is_set st i).2).sig j).event_is_set = (st.sig j).event_is_set := by
  unfold Signal.is_set; split
  · simp [SingleEvent.is_set]
  · simp only [Event.is_set, store_flag_flag]
    split
    · next e => rw [e, h]
    · rfl

@[simp] lemma reset_bound (st : State) (i j : Nat) :
    ((Signal.reset st i).sig j).bound_events = (st.sig j).bound_events := by
  unfold Signal.reset; split <;> simp [SingleEvent.reset, Event.reset]

@[simp] lemma reset_kind (st : State) (i j : Nat) :
    ((Signal.reset st i).sig j).kind = (st.sig j).kind := by
  unfold Signal.reset; split <;> simp [SingleEvent.reset, Event.reset]

@[simp] lemma bind_bound (st : State) (i ev j : Nat) :
    ((SingleEvent.bind_events st i ev).sig j).bound_events =
      if j = i then (st.sig i).bound_events.insert ev else (st.sig j).bound_events := by
  simp only [SingleEvent.bind_events, put_sig_sig]; split <;> rfl

@[simp] lemma bind_flag (st : State) (i ev j : Nat) :
    ((SingleEvent.bind_events st i ev).sig j).event_is_set = (st.sig j).event_is_set := by
  simp only [SingleEvent.bind_events, put_sig_sig]; split
  · next h => subst h; rfl
  · rfl

@[simp] lemma bind_kind (st : State) (i ev j : Nat) :
    ((SingleEvent.bind_events st i ev).sig j).kind = (st.sig j).kind := by
  simp only [SingleEvent.bind_events, put_sig_sig]; split
  · next h => subst h; rfl
  · rfl

@[simp] lemma bind_mux (st : State) (i ev : Nat) :
    (SingleEvent.bind_events st i ev).mux = st.mux := rfl

@[simp] lemma unbind_bound (st : State) (i ev j : Nat) :
    ((SingleEvent.unbind_events st i ev).sig j).bound_events =
      if j = i then (st.sig i).bound_events.erase ev else (st.sig j).bound_events := by
  simp only [SingleEvent.unbind_events, put_sig_sig]; split <;> rfl

@[simp] lemma unbind_kind (st : State) (i ev j : Nat) :
    ((SingleEvent.unbind_events st i ev).sig j).kind = (st.sig j).kind := by
  simp only [SingleEvent.unbind_events, put_sig_sig]; split
  · next h => subst h; rfl
  · rfl

@[simp] lemma unbind_all_kind (m : Nat) (events : List Nat) (st : State) (j : Nat) :
    ((unbind_all m events st).sig j).kind = (st.sig j).kind := by
  induction events generalizing st with
  | nil => rfl
  | cons a l ih => simp only [unbind_all, List.foldl_cons] at ih ⊢; rw [ih, unbind_kind]

/-! ## The retry loop -/

/-- A pass in which the callable completes leaves `reenter` as it was. -/
lemma loop_body_of_completes (func : Nat → Option Nat)
    (h : Nat → tracked_exception → Bool) (s : LoopState) (hf : func s.invocations = none) :
    loop_body func h s = { reenter := s.reenter, invocations := s.invocations + 1 } := by
  simp [loop_body, try_catch_wrapper, hf]

/-- A pass in which the callable faults stores the answer of the handler. -/
lemma loop_body_of_faults (func : Nat → Option Nat)
    (h : Nat → tracked_exception → Bool) (s : LoopState) (code : Nat)
    (hf : func s.invocations = some code) :
    loop_body func h s =
      { reenter := handle_seh (h s.invocations) code, invocations := s.invocations + 1 } := by
  simp [loop_body, try_catch_wrapper, hf]

/-- Once `reenter` is `true` and the callable no longer faults, the loop is
never left. -/
lemma run_loop_stuck (func : Nat → Option Nat) (h : Nat → tracked_exception → Bool) (n : Nat)
    (hok : ∀ k, n ≤ k → func k = none) :
    ∀ (fuel : Nat) (s : LoopState), s.reenter = true → n ≤ s.invocations →
      run_loop func h fuel s = none := by
  intro fuel
  induction fuel with
  | zero => intro s _ _; rfl
  | succ fuel ih =>
    intro s hr hn
    have hb := loop_body_of_completes func h s (hok _ hn)
    simp only [run_loop, hb, hr, if_true]
    exact ih _ rfl (Nat.le_succ_of_le hn)

/-- While the callable faults and the handler answers `true`, the loop goes on. -/
lemma run_loop_while_faulting (func : Nat → Option Nat) (h : Nat → tracked_exception → Bool)
    (n : Nat) (hfault : ∀ k, k < n → ∃ code, func k = some code ∧ handle_seh (h k) code = true)
    (hok : ∀ k, n ≤ k → func k = none) :
    ∀ (fuel : Nat) (s : LoopState), s.invocations < n → run_loop func h fuel s = none := by
  intro fuel
  induction fuel with
  | zero => intro s _; rfl
  | succ fuel ih =>
    intro s hlt
    obtain ⟨code, hc, hh⟩ := hfault _ hlt
    have hb := loop_body_of_faults func h s code hc
    simp only [run_loop, hb, hh, if_true]
    by_cases hlt2 : s.invocations + 1 < n
    · exact ih _ hlt2
    · exact run_loop_stuck func h n hok fuel _ rfl (by simp only; omega)

/-- With at least one retried fault followed by invocations that complete,
the thread body never ends. -/
lemma wrapped_never_ends (func : Nat → Option Nat) (h : Nat → tracked_exception → Bool)
    (n : Nat) (hn : 0 < n)
    (hfault : ∀ k, k < n → ∃ code, func k = some code ∧ handle_seh (h k) code = true)
    (hok : ∀ k, n ≤ k → func k = none) (fuel : Nat) :
    wrapped func h fuel = none :=
  run_loop_while_faulting func h n hfault hok fuel _ hn

/-- A callable that completes on its first invocation is invoked once. -/
lemma wrapped_no_fault (func : Nat → Option Nat) (h : Nat → tracked_exception → Bool)
    (h0 : func 0 = none) (fuel : Nat) : wrapped func h (fuel + 1) = some 1 := by
  simp [wrapped, run_loop, loop_body, try_catch_wrapper, h0]

/-- C1 (the code at the failing input): a callable that faults on its first two
invocations and completes from the third on, under a handler that retries the
fault.  After the third invocation `reenter` still holds the `true` of the
second fault, so the loop goes on to a fourth invocation, and for every bound
on the number of passes the thread body has not ended. -/
theorem run_loop_reenters_after_success :
    (loop_body (faults_first 2) retry_on_ccW)^[3] { reenter := false, invocations := 0 }
        = { reenter := true, invocations := 3 }
      ∧ ∀ fuel, wrapped (faults_first 2) retry_on_ccW fuel = none := by
  refine ⟨by decide, fun fuel => ?_⟩
  apply wrapped_never_ends (faults_first 2) retry_on_ccW 2 (by decide)
  · intro k hk
    exact ⟨cpp_exception_code, by simp [faults_first, hk], by simp [handle_seh, retry_on_ccW]⟩
  · intro k hk
    simp [faults_first]; omega

/-! ## Timeout arithmetic -/

lemma wrap64_of_mem (x : Int) (h0 : -9223372036854775808 ≤ x) (h1 : x ≤ time_point_max) :
    wrap64 x = x := by
  unfold wrap64; unfold time_point_max at h1; omega

/-- The halving loop on a non-negative `d_wait` below `2 ^ fuel`, at a clock
reading below the maximum: it ends within `fuel + 1` tests, with a chunk that
is no larger, fits before the maximum, and is `0` only if `d_wait` was `0` or
the clock is one tick before its maximum. -/
lemma halving_loop_spec (t_now : Int) (hn : t_now < time_point_max) :
    ∀ (fuel : Nat) (d : Int), 0 ≤ d → d < 2 ^ fuel → d ≤ time_point_max →
      ∃ r, halving_loop t_now (fuel + 1) d = some r ∧ 0 ≤ r ∧ r ≤ d ∧
        t_now + r < time_point_max ∧ (r = 0 → d = 0 ∨ time_point_max - 1 ≤ t_now) := by
  intro fuel
  induction fuel with
  | zero =>
    intro d h0 h1 _
    have hd : d = 0 := by simp at h1; omega
    subst hd
    refine ⟨0, ?_, le_refl _, le_refl _, by simpa using hn, fun _ => Or.inl rfl⟩
    have hw : wrap64 (time_point_max - 0) = time_point_max :=
      by rw [sub_zero]; exact wrap64_of_mem _ (by unfold time_point_max; norm_num) (le_refl _)
    simp only [halving_loop, hw]
    rw [if_neg (not_le.mpr hn)]
  | succ fuel ih =>
    intro d h0 h1 hM
    have hw : wrap64 (time_point_max - d) = time_point_max - d :=
      wrap64_of_mem _ (by unfold time_point_max at *; omega) (by omega)
    rw [halving_loop, hw]
    by_cases hc : time_point_max - d ≤ t_now
    · rw [if_pos hc, Int.tdiv_eq_ediv h0 (by norm_num)]
      have h2 : d / 2 < 2 ^ fuel := by
        have : (2 : Int) ^ (fuel + 1) = 2 * 2 ^ fuel := by ring
        omega
      obtain ⟨r, hr, hr0, hrd, hrM, hz⟩ := ih (d / 2) (by omega) h2 (by omega)
      refine ⟨r, hr, hr0, by omega, hrM, fun h => ?_⟩
      rcases hz h with hz | hz
      · by_cases hd0 : d = 0
        · exact Or.inl hd0
        · right; omega
      · exact Or.inr hz
    · rw [if_neg hc]
      exact ⟨d, rfl, h0, le_refl _, by omega, fun h => Or.inl h⟩

/-- What `wait_time_no_overflow` returns when the timeout and the elapsed time
are representable durations and the clock is below its maximum. -/
lemma wait_time_no_overflow_spec (t t_start t_now : Int) (htM : t ≤ time_point_max)
    (hs : t_start ≤ t_now) (hn : t_now < time_point_max)
    (hel : t_now - t_start ≤ time_point_max) :
    ∃ d, wait_time_no_overflow t t_start t_now = some d ∧ 0 ≤ d ∧
      d ≤ max (t - (t_now - t_start)) 0 ∧ t_now + d < time_point_max ∧
      (d = 0 → t ≤ t_now - t_start ∨ time_point_max - 1 ≤ t_now) := by
  have he : wrap64 (t_now - t_start) = t_now - t_start :=
    wrap64_of_mem _ (by omega) hel
  unfold wait_time_no_overflow
  simp only [he]
  by_cases hgt : t > t_now - t_start
  · have hw : wrap64 (t - (t_now - t_start)) = t - (t_now - t_start) :=
      wrap64_of_mem _ (by omega) (by omega)
    rw [if_pos hgt, hw]
    obtain ⟨r, hr, hr0, hrd, hrM, hz⟩ :=
      halving_loop_spec t_now hn 64 (t - (t_now - t_start)) (by omega)
        (by unfold time_point_max at *; norm_num; omega) (by omega)
    refine ⟨r, hr, hr0, le_trans hrd (le_max_left _ _), hrM, fun h => ?_⟩
    rcases hz h with hz | hz
    · left; omega
    · exact Or.inr hz
  · rw [if_neg hgt]
    obtain ⟨r, hr, hr0, hrd, hrM, _⟩ :=
      halving_loop_spec t_now hn 64 0 (le_refl _) (by norm_num)
        (by unfold time_point_max; norm_num)
    have hr00 : r = 0 := by omega
    subst hr00
    exact ⟨0, hr, le_refl _, le_max_right _ _, hrM, fun _ => Or.inl (by omega)⟩

/-! ## The bound of 65 tests in `wait_time_no_overflow` -/

/-- At a clock reading that is the maximum, the halving loop never ends on a
non-negative `d_wait`: its condition stays true, also at `d_wait = 0`. -/
lemma halving_loop_spins (t_now : Int) (hn : time_point_max ≤ t_now) :
    ∀ (fuel : Nat) (d : Int), 0 ≤ d → d ≤ time_point_max → halving_loop t_now fuel d = none := by
  intro fuel
  induction fuel with
  | zero => intro d _ _; rfl
  | succ fuel ih =>
    intro d h0 hM
    have hw : wrap64 (time_point_max - d) = time_point_max - d :=
      wrap64_of_mem _ (by unfold time_point_max at *; omega) (by omega)
    rw [halving_loop, hw, if_pos (by omega), Int.tdiv_eq_ediv h0 (by norm_num)]
    exact ih _ (by omega) (by omega)

/-- Halving moves towards `0`, for either sign. -/
lemma natAbs_tdiv_two (d : Int) : (Int.tdiv d 2).natAbs = d.natAbs / 2 := by
  rcases Int.natAbs_eq d with h | h
  · rw [h, Int.tdiv_eq_ediv (Int.ofNat_nonneg _) (by norm_num)]
    simp only [Int.natAbs_ofNat]
    omega
  · rw [h, Int.neg_tdiv, Int.natAbs_neg, Int.tdiv_eq_ediv (Int.ofNat_nonneg _) (by norm_num)]
    simp only [Int.natAbs_neg, Int.natAbs_ofNat]
    omega

/-- When `fuel + 1` tests do not end the halving loop on a `d_wait` of
magnitude below `2 ^ fuel`, the last test was made on `d_wait = 0`, where the
loop spins for ever: the clock reads its maximum or more. -/
lemma halving_loop_none (t_now : Int) :
    ∀ (fuel : Nat) (d : Int), d.natAbs < 2 ^ fuel → halving_loop t_now (fuel + 1) d = none →
      time_point_max ≤ t_now := by
  intro fuel
  induction fuel with
  | zero =>
    intro d hd h
    have hd0 : d = 0 := by
      have : d.natAbs = 0 := by simpa using hd
      exact Int.natAbs_eq_zero.mp this
    subst hd0
    have hw : wrap64 (time_point_max - 0) = time_point_max := by decide
    rw [halving_loop, hw] at h
    by_contra hc
    rw [if_neg hc] at h
    exact Option.noConfusion h
  | succ fuel ih =>
    intro d hd h
    rw [halving_loop] at h
    by_cases hc : wrap64 (time_point_max - d) ≤ t_now
    · rw [if_pos hc] at h
      refine ih _ ?_ h
      rw [natAbs_tdiv_two]
      have : 2 ^ (fuel + 1) = 2 * 2 ^ fuel := by ring
      omega
    · rw [if_neg hc] at h
      exact Option.noConfusion h

/-- The 65 tests allowed in `wait_time_no_overflow` lose nothing: on a 64-bit
`d_wait` the result is `none` only when the source loop does not end. -/
lemma wait_time_no_overflow_none (t t_start t_now : Int)
    (h : wait_time_no_overflow t t_start t_now = none) : time_point_max ≤ t_now := by
  unfold wait_time_no_overflow at h
  refine halving_loop_none t_now 64 _ ?_ h
  have hw : ∀ x : Int, (wrap64 x).natAbs < 2 ^ 64 := by
    intro x
    have h2 : (2 : Nat) ^ 64 = 18446744073709551616 := by norm_num
    rw [h2]
    unfold wrap64
    omega
  split
  · exact hw _
  · norm_num

/-! ## The chunk returned by `wait_time_no_overflow` -/

/-- Halving towards `0` stays between `0` and the value halved. -/
lemma tdiv_two_between (d : Int) :
    (0 ≤ d → 0 ≤ Int.tdiv d 2 ∧ Int.tdiv d 2 ≤ d) ∧ (d ≤ 0 → d ≤ Int.tdiv d 2 ∧ Int.tdiv d 2 ≤ 0) := by
  constructor
  · intro h
    rw [Int.tdiv_eq_ediv h (by norm_num)]
    omega
  · intro h
    have hneg : Int.tdiv d 2 = -((-d) / 2) := by
      have h1 : d = -(-d) := by omega
      conv_lhs => rw [h1, Int.neg_tdiv, Int.tdiv_eq_ediv (by omega) (by norm_num)]
    rw [hneg]
    omega

/-- Whenever the halving loop is left, its condition is false at the value
returned, and that value lies between `0` and the `d_wait` the loop started
with. -/
lemma halving_loop_exit (t_now : Int) :
    ∀ (fuel : Nat) (d r : Int), halving_loop t_now fuel d = some r →
      ¬ (wrap64 (time_point_max - r) ≤ t_now) ∧
        (0 ≤ d → 0 ≤ r ∧ r ≤ d) ∧ (d ≤ 0 → d ≤ r ∧ r ≤ 0) := by
  intro fuel
  induction fuel with
  | zero => intro d r h; exact Option.noConfusion h
  | succ fuel ih =>
    intro d r h
    rw [halving_loop] at h
    by_cases hc : wrap64 (time_point_max - d) ≤ t_now
    · rw [if_pos hc] at h
      obtain ⟨h1, h2, h3⟩ := ih _ _ h
      obtain ⟨hp, hm⟩ := tdiv_two_between d
      refine ⟨h1, fun h0 => ?_, fun h0 => ?_⟩
      · have := hp h0
        have := h2 this.1
        omega
      · have := hm h0
        have := h3 this.2
        omega
    · rw [if_neg hc] at h
      obtain rfl := Option.some.inj h
      exact ⟨hc, fun h0 => ⟨h0, le_refl _⟩, fun h0 => ⟨le_refl _, h0⟩⟩

/-- At a clock reading below the maximum `wait_time_no_overflow` returns, and
the deadline `t_now + d` is below the maximum, whatever the 64-bit values of
the timeout and of the start time are. -/
lemma wait_time_no_overflow_deadline (t t_start t_now : Int) (hn : t_now < time_point_max) :
    ∃ d, wait_time_no_overflow t t_start t_now = some d ∧ t_now + d < time_point_max := by
  cases hw : wait_time_no_overflow t t_start t_now with
  | none =>
    have := wait_time_no_overflow_none t t_start t_now hw
    omega
  | some d =>
    refine ⟨d, rfl, ?_⟩
    unfold wait_time_no_overflow at hw
    obtain ⟨hexit, hpos, hneg⟩ := halving_loop_exit t_now _ _ _ hw
    have hrange : ∀ x : Int, -9223372036854775808 ≤ wrap64 x ∧ wrap64 x ≤ time_point_max := by
      intro x; unfold wrap64 time_point_max; omega
    have hd0 : -9223372036854775808 ≤
        (if t > wrap64 (t_now - t_start) then wrap64 (t - wrap64 (t_now - t_start)) else 0) ∧
        (if t > wrap64 (t_now - t_start) then wrap64 (t - wrap64 (t_now - t_start)) else 0)
          ≤ time_point_max := by
      split
      · exact hrange _
      · unfold time_point_max; omega
    by_cases hsign : 0 ≤
        (if t > wrap64 (t_now - t_start) then wrap64 (t - wrap64 (t_now - t_start)) else 0)
    · obtain ⟨hr0, hrd⟩ := hpos hsign
      have hwr : wrap64 (time_point_max - d) = time_point_max - d :=
        wrap64_of_mem _ (by unfold time_point_max at *; omega) (by omega)
      rw [hwr] at hexit
      omega
    · obtain ⟨_, hr0⟩ := hneg (by omega)
      omega

/-- C9 (the claim as stated fails): timeout `5`, start time
`-4611686018427387904`, current time `6917529027641081856`; every range of the
claim holds, but the elapsed time exceeds `duration::max()`, its 64-bit value
is negative, and the chunk returned is `1729382256910270465`, above the bound
`max (t - (t_now - t_start)) 0 = 0`. -/
theorem wait_time_no_overflow_exceeds_bound :
    ((0 : Int) ≤ 5 ∧ (5 : Int) ≤ time_point_max ∧
        (-4611686018427387904 : Int) ≤ 6917529027641081856 ∧
        (6917529027641081856 : Int) < time_point_max) ∧
      wait_time_no_overflow 5 (-4611686018427387904) 6917529027641081856
        = some 1729382256910270465 ∧
      max ((5 : Int) - (6917529027641081856 - (-4611686018427387904))) 0 = 0 ∧
      ¬ ((1729382256910270465 : Int)
        ≤ max ((5 : Int) - (6917529027641081856 - (-4611686018427387904))) 0) := by
  decide

/-- C9 (as amended): for a timeout `0 ≤ t ≤ duration::max()`, a start time and a
current time with `t_start ≤ t_now < time_point::max()`, the halving loop of
`wait_time_no_overflow` ends and the chunk `d` it returns satisfies
`t_now + d < time_point::max()`: the deadline does not overflow.  When the
elapsed time `t_now - t_start` is a representable duration (at most
`duration::max()`, as it is for non-negative clock readings), the chunk also
satisfies `0 ≤ d ≤ max (t - (t_now - t_start)) 0`. -/
theorem wait_time_no_overflow_fits (t t_start t_now : Int) (_ht0 : 0 ≤ t)
    (htM : t ≤ time_point_max) (hs : t_start ≤ t_now) (hn : t_now < time_point_max) :
    ∃ d, wait_time_no_overflow t t_start t_now = some d ∧ t_now + d < time_point_max ∧
      (t_now - t_start ≤ time_point_max → 0 ≤ d ∧ d ≤ max (t - (t_now - t_start)) 0) := by
  obtain ⟨d, hd, hdl⟩ := wait_time_no_overflow_deadline t t_start t_now hn
  refine ⟨d, hd, hdl, fun hel => ?_⟩
  obtain ⟨d1, h1, h2, h3, _, _⟩ := wait_time_no_overflow_spec t t_start t_now htM hs hn hel
  rw [hd] at h1
  obtain rfl := Option.some.inj h1
  exact ⟨h2, h3⟩

/-- The timeout `duration::max()` asked for eight ticks before the end of the
clock range, the call having started at tick `5`. -/
theorem wait_time_no_overflow_fits_witness :
    ((0 : Int) ≤ time_point_max ∧ (5 : Int) ≤ 9223372036854775800 ∧
        (9223372036854775800 : Int) < time_point_max ∧
        (9223372036854775800 : Int) - 5 ≤ time_point_max) ∧
      ∃ d, wait_time_no_overflow time_point_max 5 9223372036854775800 = some d ∧
        9223372036854775800 + d < time_point_max ∧ 0 ≤ d ∧
        d ≤ max (time_point_max - (9223372036854775800 - 5)) 0 := by
  refine ⟨by decide, ?_⟩
  obtain ⟨d, h1, h2, h3⟩ := wait_time_no_overflow_fits time_point_max 5 9223372036854775800
    (by decide) (by decide) (by decide) (by decide)
  exact ⟨d, h1, h2, (h3 (by decide)).1, (h3 (by decide)).2⟩

/-! ## The timed waiting loop -/

/-- More passes do not change a result already reached. -/
lemma timed_wait_loop_mono (p : State → Bool) (t t_start : Int) (clk : Nat → Int)
    (env : Nat → List Nat) :
    ∀ (fuel k : Nat) (st : State) (r : Bool × Nat × State),
      timed_wait_loop p t t_start clk env fuel k st = some r →
      ∀ extra, timed_wait_loop p t t_start clk env (fuel + extra) k st = some r := by
  intro fuel
  induction fuel with
  | zero => intro k st r h; simp [timed_wait_loop] at h
  | succ fuel ih =>
    intro k st r h extra
    rw [show fuel + 1 + extra = (fuel + extra) + 1 by omega]
    rw [timed_wait_loop] at h ⊢
    cases hw : wait_time_no_overflow t t_start (clk k) with
    | none => rw [hw] at h; simp at h
    | some d =>
      rw [hw] at h
      simp only at h ⊢
      by_cases hd : d > 0
      · rw [if_pos hd] at h ⊢
        by_cases h1 : p st = true
        · rw [if_pos h1] at h ⊢; exact h
        · rw [if_neg h1] at h ⊢
          by_cases h2 : p (apply_sets st (env k)) = true
          · rw [if_pos h2] at h ⊢; exact h
          · rw [if_neg h2] at h ⊢; exact ih _ _ _ h extra
      · rw [if_neg hd] at h ⊢; exact h

/-- The timed waiting loop changes no set of bound binder events and no
dynamic type. -/
lemma timed_wait_loop_frame (p : State → Bool) (t t_start : Int) (clk : Nat → Int)
    (env : Nat → List Nat) :
    ∀ (fuel k : Nat) (st : State) (b : Bool) (j : Nat) (st1 : State),
      timed_wait_loop p t t_start clk env fuel k st = some (b, j, st1) →
      ∀ x, (st1.sig x).bound_events = (st.sig x).bound_events ∧
        (st1.sig x).kind = (st.sig x).kind := by
  intro fuel
  induction fuel with
  | zero => intro k st b j st1 h; simp [timed_wait_loop] at h
  | succ fuel ih =>
    intro k st b j st1 h x
    rw [timed_wait_loop] at h
    cases hw : wait_time_no_overflow t t_start (clk k) with
    | none => rw [hw] at h; simp at h
    | some d =>
      rw [hw] at h
      simp only at h
      by_cases hd : d > 0
      · rw [if_pos hd] at h
        by_cases h1 : p st = true
        · rw [if_pos h1] at h
          simp only [Option.some.injEq, Prod.mk.injEq] at h
          obtain ⟨_, _, rfl⟩ := h
          exact ⟨rfl, rfl⟩
        · rw [if_neg h1] at h
          by_cases h2 : p (apply_sets st (env k)) = true
          · rw [if_pos h2] at h
            simp only [Option.some.injEq, Prod.mk.injEq] at h
            obtain ⟨_, _, rfl⟩ := h
            exact ⟨apply_sets_bound _ _ _, apply_sets_kind _ _ _⟩
          · rw [if_neg h2] at h
            have := ih _ _ _ _ _ h x
            rw [apply_sets_bound, apply_sets_kind] at this
            exact this
      · rw [if_neg hd] at h
        simp only [Option.some.injEq, Prod.mk.injEq] at h
        obtain ⟨_, _, rfl⟩ := h
        exact ⟨rfl, rfl⟩

/-- A timeout that is not positive: the loop body is never entered, whatever
the flag says. -/
lemma timed_wait_loop_of_chunk_zero (p : State → Bool) (t t_start : Int) (clk : Nat → Int)
    (env : Nat → List Nat) (fuel k : Nat) (st : State)
    (h : wait_time_no_overflow t t_start (clk k) = some 0) :
    timed_wait_loop p t t_start clk env (fuel + 1) k st = some (false, k, st) := by
  rw [timed_wait_loop, h]; simp

/-- A flag that is already `true` ends the loop in its first timed wait,
provided the first chunk is positive. -/
lemma timed_wait_loop_of_set (p : State → Bool) (t t_start : Int) (clk : Nat → Int)
    (env : Nat → List Nat) (fuel k : Nat) (st : State) (d : Int)
    (h : wait_time_no_overflow t t_start (clk k) = some d) (hd : 0 < d) (hp : p st = true) :
    timed_wait_loop p t t_start clk env (fuel + 1) k st = some (true, k + 1, st) := by
  rw [timed_wait_loop, h]; simp [hd, hp]

/-- Under `clock_advances`, every reading is at least `t_start`. -/
lemma clock_advances_ge (t t_start : Int) (clk : Nat → Int) (htM : t ≤ time_point_max)
    (hc : clock_advances t t_start clk) : ∀ k, t_start ≤ clk k := by
  obtain ⟨h0, h1, h2, h3⟩ := hc
  intro k
  induction k with
  | zero => exact h1
  | succ k ih =>
    obtain ⟨d, hd, hd0, _, _, _⟩ :=
      wait_time_no_overflow_spec t t_start (clk k) htM ih (h2 k) (by have := h2 k; omega)
    have := h3 k d hd
    omega

/-- The loop on a signal that is never set: it ends after finitely many timed
waits with `pred = false`, the flag still `false`, and at the last reading
either `t` has elapsed or the clock is one tick before its maximum. -/
lemma timed_wait_loop_never_set (i : Nat) (t t_start : Int) (clk : Nat → Int)
    (env : Nat → List Nat) (htM : t ≤ time_point_max) (hc : clock_advances t t_start clk)
    (henv : ∀ k, i ∉ env k) :
    ∀ (n k : Nat) (st : State), (st.sig i).event_is_set = false →
      (time_point_max - clk k).toNat ≤ n →
      ∃ fuel j st1,
        timed_wait_loop (fun s => (s.sig i).event_is_set) t t_start clk env fuel k st
            = some (false, j, st1) ∧
          k ≤ j ∧ (st1.sig i).event_is_set = false ∧
          (∀ x, (st1.sig x).kind = (st.sig x).kind) ∧
          (t ≤ clk j - t_start ∨ clk j = time_point_max - 1) := by
  have hge := clock_advances_ge t t_start clk htM hc
  obtain ⟨h0, h1, h2, h3⟩ := hc
  intro n
  induction n with
  | zero =>
    intro k st _ hm
    have := h2 k
    omega
  | succ n ih =>
    intro k st hflag hm
    obtain ⟨d, hd, hd0, _, hdM, hz⟩ :=
      wait_time_no_overflow_spec t t_start (clk k) htM (hge k) (h2 k)
        (by have := h2 k; omega)
    by_cases hpos : 0 < d
    · have hadv := h3 k d hd
      have hflag1 : ((apply_sets st (env k)).sig i).event_is_set = false := by
        rw [apply_sets_flag_of_not_mem _ _ _ (henv k)]; exact hflag
      obtain ⟨fuel, j, st1, hr, hkj, hf1, hk1, hfin⟩ :=
        ih (k + 1) (apply_sets st (env k)) hflag1 (by have := h2 (k + 1); omega)
      refine ⟨fuel + 1, j, st1, ?_, by omega, hf1, ?_, hfin⟩
      · rw [timed_wait_loop, hd]
        simp only [gt_iff_lt, hpos, if_true, hflag, hflag1]
        simpa using hr
      · intro x; rw [hk1 x, apply_sets_kind]
    · have hd00 : d = 0 := by omega
      subst hd00
      refine ⟨1, k, st, timed_wait_loop_of_chunk_zero _ _ _ _ _ _ _ _ hd, le_refl _, hflag,
        fun _ => rfl, ?_⟩
      rcases hz rfl with hz | hz
      · exact Or.inl hz
      · right; have := h2 k; omega

/-! ## One signal: timed waits and reset policies -/

/-- The clock of the examples advances as `clock_advances` asks, for a timeout
of `5` ticks started at `0`. -/
lemma step_clock_advances : clock_advances 5 0 step_clock := by
  refine ⟨le_refl _, by decide, fun k => ?_, fun k d h => ?_⟩
  · unfold step_clock time_point_max; split <;> norm_num
  · cases k with
    | zero =>
      have h5 : wait_time_no_overflow 5 0 (step_clock 0) = some 5 := by decide
      rw [h5] at h
      obtain rfl := Option.some.inj h
      decide
    | succ k =>
      have hk : step_clock (k + 1) = 10 := by simp [step_clock]
      have hk2 : step_clock (k + 1 + 1) = 10 := by simp [step_clock]
      have h0 : wait_time_no_overflow 5 0 10 = some 0 := by decide
      rw [hk, h0] at h
      obtain rfl := Option.some.inj h
      rw [hk, hk2]; norm_num

/-- The clock that jumps to one tick before its maximum also advances as
`clock_advances` asks, for the timeout `duration::max()` started at `0`. -/
lemma late_clock_advances : clock_advances time_point_max 0 late_clock := by
  refine ⟨le_refl _, by decide, fun k => ?_, fun k d h => ?_⟩
  · unfold late_clock time_point_max; split <;> norm_num
  · cases k with
    | zero =>
      have h5 : wait_time_no_overflow time_point_max 0 (late_clock 0)
          = some 4611686018427387903 := by decide
      rw [h5] at h
      obtain rfl := Option.some.inj h
      decide
    | succ k =>
      have hk : late_clock (k + 1) = time_point_max - 1 := by simp [late_clock]
      have hk2 : late_clock (k + 1 + 1) = time_point_max - 1 := by simp [late_clock]
      have h0 : wait_time_no_overflow time_point_max 0 (time_point_max - 1) = some 0 := by
        decide
      rw [hk, h0] at h
      obtain rfl := Option.some.inj h
      rw [hk, hk2]; norm_num

/-- The call `SingleEvent::wait_for` on a signal that is not set and that nobody sets. -/
lemma SingleEvent_wait_for_never_set (st : State) (i : Nat) (t t_start : Int)
    (clk : Nat → Int) (env : Nat → List Nat) (htM : t ≤ time_point_max)
    (hc : clock_advances t t_start clk) (hflag : (st.sig i).event_is_set = false)
    (henv : ∀ k, i ∉ env k) :
    ∃ fuel0 waits st1,
      (∀ fuel, fuel0 ≤ fuel →
        SingleEvent.wait_for st i t t_start clk env fuel = some (false, waits, st1)) ∧
      (st1.sig i).event_is_set = false ∧ (∀ x, (st1.sig x).kind = (st.sig x).kind) ∧
      (t ≤ clk waits - t_start ∨ clk waits = time_point_max - 1) := by
  obtain ⟨fuel, j, st1, hr, _, hf, hk, hfin⟩ :=
    timed_wait_loop_never_set i t t_start clk env htM hc henv _ 0 st hflag (le_refl _)
  refine ⟨fuel, j, st1, fun fuel1 hle => ?_, hf, hk, hfin⟩
  obtain ⟨extra, rfl⟩ := Nat.exists_eq_add_of_le hle
  exact timed_wait_loop_mono _ _ _ _ _ _ _ _ _ hr extra

/-- An auto-reset `Event` whose flag is `false` shows `false` to the next
observation. -/
lemma next_observes_false_of_unset (st : State) (i : Nat)
    (hk : (st.sig i).kind = SigKind.Event) (hflag : (st.sig i).event_is_set = false) :
    next_observes_false st i := by
  refine ⟨by rw [is_set_fst]; exact hflag, fun t t_start clk env htM hc henv => ?_⟩
  obtain ⟨fuel0, waits, st1, hr, _, _, _⟩ :=
    SingleEvent_wait_for_never_set st i t t_start clk env htM hc hflag henv
  refine ⟨fuel0, waits, st1.store_flag i false, fun fuel hle => ?_⟩
  simp only [Signal.wait_for, hk, Event.wait_for, hr fuel hle]

/-- C10 (as amended): on a signal that is not set and that nobody sets, under a
clock that advances by at least the chunk across each timed wait,
`wait_for(t)` with `t ≤ duration::max()` returns `false` after finitely many
timed waits; when it returns, `t` has elapsed since `t_start` or the clock
stands one tick before `time_point::max()`.  When the deadline `t_start + t`
is below `time_point::max()`, at least `t` has elapsed. -/
theorem wait_for_never_set_returns_false (st : State) (i : Nat) (t t_start : Int)
    (clk : Nat → Int) (env : Nat → List Nat) (htM : t ≤ time_point_max)
    (hc : clock_advances t t_start clk) (hflag : (st.sig i).event_is_set = false)
    (henv : ∀ k, i ∉ env k) :
    ∃ fuel0 waits st1,
      (∀ fuel, fuel0 ≤ fuel →
        SingleEvent.wait_for st i t t_start clk env fuel = some (false, waits, st1)) ∧
      (t ≤ clk waits - t_start ∨ clk waits = time_point_max - 1) ∧
      (t_start + t < time_point_max → t ≤ clk waits - t_start) := by
  obtain ⟨fuel0, waits, st1, hr, _, _, hfin⟩ :=
    SingleEvent_wait_for_never_set st i t t_start clk env htM hc hflag henv
  refine ⟨fuel0, waits, st1, hr, hfin, fun hlt => ?_⟩
  rcases hfin with h | h
  · exact h
  · omega

/-- A timeout of `5` ticks on a fresh signal, the clock reading `0` and then
`10`. -/
theorem wait_for_never_set_returns_false_witness :
    ((5 : Int) ≤ time_point_max ∧ clock_advances 5 0 step_clock ∧
        ((State.init all_single).sig 0).event_is_set = false ∧ (∀ k, 0 ∉ no_sets k)) ∧
      ∃ fuel0 waits st1,
        (∀ fuel, fuel0 ≤ fuel →
          SingleEvent.wait_for (State.init all_single) 0 5 0 step_clock no_sets fuel
            = some (false, waits, st1)) ∧
        (5 ≤ step_clock waits - 0 ∨ step_clock waits = time_point_max - 1) ∧
        ((0 : Int) + 5 < time_point_max → 5 ≤ step_clock waits - 0) :=
  ⟨⟨by decide, step_clock_advances, rfl, fun _ => by simp [no_sets]⟩,
    wait_for_never_set_returns_false (State.init all_single) 0 5 0 step_clock no_sets
      (by decide) step_clock_advances rfl (fun _ => by simp [no_sets])⟩

/-- With the timeout `duration::max()` no reading of an admissible clock shows
the timeout elapsed: whenever such a `wait_for` returns, it returns early. -/
lemma elapsed_below_max_timeout (t_start : Int) (clk : Nat → Int)
    (hc : clock_advances time_point_max t_start clk) (k : Nat) :
    clk k - t_start < time_point_max := by
  obtain ⟨h0, _, h2, _⟩ := hc
  have := h2 k
  omega

/-- C10 (the claim as stated fails): timeout `duration::max()`, call started at
tick `0`, signal never set, clock advancing by at least the chunk.  The call
makes one timed wait and returns `false` at reading `time_point::max() - 1`:
less than `t` has elapsed.  No reading of this clock can show `t` elapsed. -/
theorem wait_for_max_timeout_returns_early :
    clock_advances time_point_max 0 late_clock ∧
      ((State.init all_single).sig 0).event_is_set = false ∧
      (∀ k, 0 ∉ no_sets k) ∧
      (SingleEvent.wait_for (State.init all_single) 0 time_point_max 0 late_clock no_sets 2).map
          (fun r => (r.1, r.2.1)) = some (false, 1) ∧
      late_clock 1 - 0 < time_point_max :=
  ⟨late_clock_advances, rfl, fun _ => by simp [no_sets], by decide, by decide⟩

/-- C5 (the code at the failing input): `wait_for(0)` on a signal that is set.
The chunk is `0`, the loop body is not entered and the flag is never read: the
call returns `false`.  Through `Event::wait_for` the flag is cleared as well. -/
theorem wait_for_zero_timeout_on_set_signal :
    ((SingleEvent.set (State.init all_single) 0).sig 0).event_is_set = true ∧
      (Signal.wait_for (SingleEvent.set (State.init all_single) 0) 0 0 0 step_clock no_sets 1).map
          (fun r => (r.1, r.2.1, (r.2.2.sig 0).event_is_set)) = some (false, 0, true) ∧
      ((SingleEvent.set (State.init all_auto) 0).sig 0).event_is_set = true ∧
      (Signal.wait_for (SingleEvent.set (State.init all_auto) 0) 0 0 0 step_clock no_sets 1).map
          (fun r => (r.1, r.2.1, (r.2.2.sig 0).event_is_set)) = some (false, 0, false) := by
  decide

/-- With a positive first chunk, `SingleEvent::wait_for` on a set signal returns
`true` from its first timed wait. -/
lemma SingleEvent_wait_for_of_set (st : State) (i : Nat) (t t_start : Int)
    (clk : Nat → Int) (env : Nat → List Nat) (fuel : Nat) (d : Int)
    (h : wait_time_no_overflow t t_start (clk 0) = some d) (hd : 0 < d)
    (hflag : (st.sig i).event_is_set = true) :
    SingleEvent.wait_for st i t t_start clk env (fuel + 1) = some (true, 1, st) :=
  timed_wait_loop_of_set _ _ _ _ _ _ _ _ _ h hd hflag

/-! ## Reset policies -/

/-- Observations of a set `SingleEvent` all see `true` and leave the state as
it is. -/
lemma observe_all_single (i : Nat) (ops : List Observation) (st : State)
    (hk : (st.sig i).kind = SigKind.SingleEvent) (hflag : (st.sig i).event_is_set = true) :
    observe_all i ops st = some (List.replicate ops.length true, st) := by
  induction ops with
  | nil => rfl
  | cons o ops ih =>
    have ho : observe st i o = some (true, st) := by
      cases o with
      | is_set => simp [observe, Signal.is_set, hk, SingleEvent.is_set, hflag]
      | wait => simp [observe, Signal.wait, hk, SingleEvent.wait, cv_wait, hflag]
    simp [observe_all, ho, ih, List.replicate_succ]

/-- Observations of a signaled manual-reset kernel event all see `true` and
leave it signaled. -/
lemma SingleWinEvent_observe_all_signaled (ops : List Observation) (o : WinEventObj)
    (hm : o.manual_reset = true) (hs : o.signaled = true) :
    SingleWinEvent.observe_all ops (some o) = some (List.replicate ops.length true, some o) := by
  induction ops with
  | nil => rfl
  | cons op ops ih =>
    have ho : SingleWinEvent.observe (some o) op = some (true, some o) := by
      cases op with
      | is_set =>
        simp [SingleWinEvent.observe, SingleWinEvent.is_set, WaitForSingleObject, hs, hm]
      | wait =>
        simp [SingleWinEvent.observe, SingleWinEvent.wait, WaitForSingleObject, hs, hm]
    simp [SingleWinEvent.observe_all, ho, ih, List.replicate_succ]

/-- C7 (the claim as stated fails): `reset()` on a set `SingleEvent` is the
empty base-class body, so the `is_set()` that follows still answers `true`. -/
theorem SingleEvent_reset_keeps_flag :
    ((State.init all_single).sig 0).kind = SigKind.SingleEvent ∧
      (Signal.is_set (Signal.reset (SingleEvent.set (State.init all_single) 0) 0) 0).1 = true := by
  decide

/-- C7 (as amended): after `set()`, any number of repeated `is_set()` and
`wait()` calls observe `true`, for a `SingleEvent` and for a `SingleWinEvent`
with a valid manual-reset handle alike.  `reset()` clears the flag of the
handle-based `SingleWinEvent`, after which `is_set()` observes `false`; the
`SingleEvent` is not resettable: its `reset()` changes nothing and `is_set()`
still observes `true`. -/
theorem manual_reset_policy (st : State) (i : Nat) (ops : List Observation)
    (hk : (st.sig i).kind = SigKind.SingleEvent) :
    (observe_all i ops (SingleEvent.set st i)
        = some (List.replicate ops.length true, SingleEvent.set st i) ∧
      Signal.reset (SingleEvent.set st i) i = SingleEvent.set st i ∧
      (Signal.is_set (Signal.reset (SingleEvent.set st i) i) i).1 = true) ∧
    ∀ o : WinEventObj, o.manual_reset = true →
      ∃ h1, (SingleWinEvent.set (some o)).1 = true ∧
        SingleWinEvent.observe_all ops (SingleWinEvent.set (some o)).2
          = some (List.replicate ops.length true, h1) ∧
        (SingleWinEvent.reset h1).1 = true ∧
        (SingleWinEvent.is_set (SingleWinEvent.reset h1).2).1 = false := by
  have hk1 : ((SingleEvent.set st i).sig i).kind = SigKind.SingleEvent := by
    rw [set_kind]; exact hk
  have hf1 : ((SingleEvent.set st i).sig i).event_is_set = true := by simp
  have hr : Signal.reset (SingleEvent.set st i) i = SingleEvent.set st i := by
    simp only [Signal.reset, hk1, SingleEvent.reset]
  refine ⟨⟨observe_all_single i ops _ hk1 hf1, hr, ?_⟩, fun o hm => ?_⟩
  · rw [hr, is_set_fst]; exact hf1
  · refine ⟨some { o with signaled := true }, rfl, ?_, rfl, ?_⟩
    · exact SingleWinEvent_observe_all_signaled ops _ hm rfl
    · simp [SingleWinEvent.reset, ResetEvent, SingleWinEvent.is_set, WaitForSingleObject]

/-- A fresh `SingleEvent` and a freshly created `SingleWinEvent`, observed by
`is_set(); wait(); is_set()`. -/
theorem manual_reset_policy_witness :
    ((State.init all_single).sig 0).kind = SigKind.SingleEvent ∧
      (observe_all 0 [Observation.is_set, Observation.wait, Observation.is_set]
          (SingleEvent.set (State.init all_single) 0)).map (fun r => r.1)
        = some [true, true, true] ∧
      SingleWinEvent.create = some { manual_reset := true, signaled := false } ∧
      ∃ h1, (SingleWinEvent.observe_all [Observation.is_set, Observation.wait, Observation.is_set]
          (SingleWinEvent.set (some { manual_reset := true, signaled := false })).2).map
            (fun r => r.1) = some [true, true, true] ∧
        (SingleWinEvent.is_set (SingleWinEvent.reset h1).2).1 = false :=
  ⟨rfl, by
    rw [(manual_reset_policy (State.init all_single) 0
      [Observation.is_set, Observation.wait, Observation.is_set] rfl).1.1]
    rfl, rfl, by
    obtain ⟨h1, _, h2, _, h4⟩ := (manual_reset_policy (State.init all_single) 0
      [Observation.is_set, Observation.wait, Observation.is_set] rfl).2
        { manual_reset := true, signaled := false } rfl
    exact ⟨h1, by rw [h2]; rfl, h4⟩⟩

/-- C8: on an auto-reset `Event` whose flag is set, a `wait()`, an `is_set()`,
and a `wait_for` that observes `true` each clear the flag as part of the
observation: the `is_set()` that follows answers `false`, and the `wait_for`
that follows, nobody having set the signal again, returns `false`.  A
`wait_for` whose first chunk is positive does observe `true`. -/
theorem auto_reset_observation_clears (st : State) (i : Nat)
    (hk : (st.sig i).kind = SigKind.Event) (hflag : (st.sig i).event_is_set = true) :
    (∀ env, ∃ st1, Signal.wait st i env = some st1 ∧ next_observes_false st1 i) ∧
    ((Signal.is_set st i).1 = true ∧ next_observes_false (Signal.is_set st i).2 i) ∧
    (∀ t t_start clk env fuel waits st1,
      Signal.wait_for st i t t_start clk env fuel = some (true, waits, st1) →
        next_observes_false st1 i) ∧
    (∀ t t_start clk env fuel d, wait_time_no_overflow t t_start (clk 0) = some d → 0 < d →
      ∃ st1, Signal.wait_for st i t t_start clk env (fuel + 1) = some (true, 1, st1)) := by
  refine ⟨fun env => ?_, ⟨by rw [is_set_fst]; exact hflag, ?_⟩, ?_, ?_⟩
  · refine ⟨st.store_flag i false, ?_, next_observes_false_of_unset _ _ (by simpa using hk)
      (by simp)⟩
    simp [Signal.wait, hk, Event.wait, SingleEvent.wait, cv_wait, hflag]
  · have h2 : (Signal.is_set st i).2 = st.store_flag i false := by
      simp [Signal.is_set, hk, Event.is_set]
    rw [h2]
    exact next_observes_false_of_unset _ _ (by simpa using hk) (by simp)
  · intro t t_start clk env fuel waits st1 h
    simp only [Signal.wait_for, hk, Event.wait_for] at h
    cases hr : SingleEvent.wait_for st i t t_start clk env fuel with
    | none => rw [hr] at h; simp at h
    | some r =>
      obtain ⟨b, k, st2⟩ := r
      rw [hr] at h
      simp only [Option.some.injEq, Prod.mk.injEq] at h
      obtain ⟨_, _, rfl⟩ := h
      have hfr := (timed_wait_loop_frame _ _ _ _ _ _ _ _ _ _ _ hr i).2
      exact next_observes_false_of_unset _ _ (by rw [store_flag_kind, hfr]; exact hk) (by simp)
  · intro t t_start clk env fuel d hd hpos
    refine ⟨st.store_flag i false, ?_⟩
    simp only [Signal.wait_for, hk, Event.wait_for,
      SingleEvent_wait_for_of_set st i t t_start clk env fuel d hd hpos hflag]

/-- An `Event` that has just been set, observed by `is_set()` twice. -/
theorem auto_reset_observation_clears_witness :
    (((SingleEvent.set (State.init all_auto) 0).sig 0).kind = SigKind.Event ∧
        ((SingleEvent.set (State.init all_auto) 0).sig 0).event_is_set = true) ∧
      (Signal.is_set (SingleEvent.set (State.init all_auto) 0) 0).1 = true ∧
      (Signal.is_set (Signal.is_set (SingleEvent.set (State.init all_auto) 0) 0).2 0).1 = false :=
  ⟨⟨rfl, rfl⟩,
    ((auto_reset_observation_clears (SingleEvent.set (State.init all_auto) 0) 0 rfl rfl).2.1).1,
    ((auto_reset_observation_clears (SingleEvent.set (State.init all_auto) 0) 0 rfl rfl).2.1).2.1⟩

/-! ## Waiting on several signals -/

@[simp] lemma new_shared_ev_sig (st : State) (m : Nat) : (new_shared_ev st m).sig = st.sig := rfl

@[simp] lemma new_shared_ev_mux (st : State) (m : Nat) :
    (new_shared_ev st m).mux m = { event_is_set := false, event_source := none } := by
  simp [new_shared_ev]

/-- The scan when some candidate is set: the local binder event ends up set
with the first set candidate of the list as its source. -/
lemma scan_events_first_set (m : Nat) :
    ∀ (events : List Nat) (st : State), (∃ i ∈ events, (st.sig i).event_is_set = true) →
      ∃ w, events.find? (fun i => (st.sig i).event_is_set) = some w ∧
        ((scan_events m events st).1.mux m) = { event_is_set := true, event_source := some w } ∧
        (scan_events m events st).2 = some w := by
  intro events
  induction events with
  | nil => intro st h; obtain ⟨i, hi, _⟩ := h; cases hi
  | cons ev rest ih =>
    intro st h
    by_cases hev : (st.sig ev).event_is_set = true
    · refine ⟨ev, by simp [List.find?, hev], ?_, ?_⟩
      · simp [scan_events, hev]
      · simp [scan_events, hev]
    · have hev0 : (st.sig ev).event_is_set = false := by simpa using hev
      have hflags : ∀ j, ((SingleEvent.bind_events (Signal.is_set st ev).2 ev m).sig j).event_is_set
          = (st.sig j).event_is_set := by
        intro j; rw [bind_flag, is_set_flag_of_false _ _ _ hev0]
      have hrest : ∃ i ∈ rest,
          ((SingleEvent.bind_events (Signal.is_set st ev).2 ev m).sig i).event_is_set = true := by
        obtain ⟨i, hi, hset⟩ := h
        rcases List.mem_cons.mp hi with rfl | hi
        · exact absurd hset hev
        · exact ⟨i, hi, by rw [hflags]; exact hset⟩
      obtain ⟨w, hw, hmux, hsrc⟩ := ih _ hrest
      refine ⟨w, ?_, ?_, ?_⟩
      · have hfun : (fun i => ((SingleEvent.bind_events (Signal.is_set st ev).2 ev m).sig i).event_is_set)
            = fun i => (st.sig i).event_is_set := funext hflags
        rw [hfun] at hw
        simp only [List.find?, hev0]
        exact hw
      · simp only [scan_events, is_set_fst, hev0]; simpa using hmux
      · simp only [scan_events, is_set_fst, hev0]; simpa using hsrc

/-- The scan binds and sets, nothing else: every set of bound binder events
is as before or, for a candidate, has `m` inserted. -/
lemma scan_events_bound (m : Nat) :
    ∀ (events : List Nat) (st : State) (x : Nat),
      ((scan_events m events st).1.sig x).bound_events = (st.sig x).bound_events ∨
        (x ∈ events ∧
          ((scan_events m events st).1.sig x).bound_events = (st.sig x).bound_events.insert m) := by
  intro events
  induction events with
  | nil => intro st x; exact Or.inl rfl
  | cons ev rest ih =>
    intro st x
    by_cases hev : (st.sig ev).event_is_set = true
    · left; simp [scan_events, hev]
    · have hev0 : (st.sig ev).event_is_set = false := by simpa using hev
      have hsc : scan_events m (ev :: rest) st
          = scan_events m rest (SingleEvent.bind_events (Signal.is_set st ev).2 ev m) := by
        simp [scan_events, hev0]
      rw [hsc]
      have hb : ((SingleEvent.bind_events (Signal.is_set st ev).2 ev m).sig x).bound_events
          = if x = ev then (st.sig ev).bound_events.insert m else (st.sig x).bound_events := by
        rw [bind_bound]; split <;> simp
      rcases ih (SingleEvent.bind_events (Signal.is_set st ev).2 ev m) x with h | ⟨hx, h⟩
      · rw [h, hb]
        by_cases hxe : x = ev
        · subst hxe; right; exact ⟨List.mem_cons_self _ _, by simp⟩
        · left; simp [hxe]
      · rw [h, hb]
        right
        refine ⟨List.mem_cons_of_mem _ hx, ?_⟩
        by_cases hxe : x = ev
        · subst hxe
          simp only [if_true]
          exact List.insert_of_mem (List.mem_insert_self _ _)
        · simp [hxe]

/-- Unbinding from every candidate undoes the bindings of the scan, when `m`
was in no candidate's set before. -/
lemma unbind_all_bound (m : Nat) (b : Nat → List Nat) :
    ∀ (events : List Nat) (st : State), (∀ x ∈ events, m ∉ b x) →
      (∀ x, (st.sig x).bound_events = b x ∨
        (x ∈ events ∧ (st.sig x).bound_events = (b x).insert m)) →
      ∀ x, ((unbind_all m events st).sig x).bound_events = b x := by
  intro events
  induction events with
  | nil =>
    intro st _ hinv x
    rcases hinv x with h | ⟨hx, _⟩
    · exact h
    · cases hx
  | cons a rest ih =>
    intro st hfresh hinv x
    have hstep : unbind_all m (a :: rest) st
        = unbind_all m rest (SingleEvent.unbind_events st a m) := rfl
    rw [hstep]
    apply ih _ (fun y hy => hfresh y (List.mem_cons_of_mem _ hy))
    intro y
    rw [unbind_bound]
    by_cases hya : y = a
    · subst hya
      left
      simp only [if_true]
      have hm := hfresh y (List.mem_cons_self _ _)
      rcases hinv y with h | ⟨_, h⟩
      · rw [h]; exact List.erase_of_not_mem hm
      · rw [h, List.insert_of_not_mem hm]; simp
    · simp only [hya, if_false]
      rcases hinv y with h | ⟨hy, h⟩
      · exact Or.inl h
      · right
        rcases List.mem_cons.mp hy with e | hy
        · exact absurd e hya
        · exact ⟨hy, h⟩

/-- The untimed wait on a binder event changes no set of bound binder events. -/
lemma BinderEvent_wait_bound (st : State) (m : Nat) (env : List Nat) (st1 : State)
    (src : Option Nat) (h : BinderEvent.wait st m env = some (st1, src)) (x : Nat) :
    (st1.sig x).bound_events = (st.sig x).bound_events := by
  unfold BinderEvent.wait cv_wait at h
  by_cases h1 : (st.mux m).event_is_set = true
  · simp only [h1, if_true, Option.some.injEq, Prod.mk.injEq] at h
    obtain ⟨rfl, _⟩ := h; rfl
  · by_cases h2 : ((apply_sets st env).mux m).event_is_set = true
    · simp only [h1, h2, if_true, Option.some.injEq, Prod.mk.injEq] at h
      obtain ⟨rfl, _⟩ := h
      exact apply_sets_bound _ _ _
    · simp [h1, h2] at h

/-- The timed wait on a binder event changes no set of bound binder events. -/
lemma BinderEvent_wait_for_bound (st : State) (m : Nat) (t t_start : Int) (clk : Nat → Int)
    (env : Nat → List Nat) (fuel : Nat) (pred : Bool) (src : Option Nat) (k : Nat)
    (st1 : State)
    (h : BinderEvent.wait_for st m t t_start clk env fuel = some (pred, src, k, st1)) (x : Nat) :
    (st1.sig x).bound_events = (st.sig x).bound_events := by
  unfold BinderEvent.wait_for at h
  cases hr : timed_wait_loop (fun s => (s.mux m).event_is_set) t t_start clk env fuel 0 st with
  | none => rw [hr] at h; simp at h
  | some r =>
    obtain ⟨b, j, st2⟩ := r
    rw [hr] at h
    simp only [Option.some.injEq, Prod.mk.injEq] at h
    obtain ⟨_, _, _, rfl⟩ := h
    exact (timed_wait_loop_frame _ _ _ _ _ _ _ _ _ _ _ hr x).1

/-! ## Schedules given step by step -/

/-- The two steps of `set()` together are the body of `SingleEvent::set`. -/
lemma apply_steps_set_steps (st : State) (i : Nat) :
    apply_steps st (SingleEvent.set_steps i) = SingleEvent.set st i := rfl

@[simp] lemma apply_steps_nil (st : State) : apply_steps st [] = st := rfl

lemma apply_steps_cons (st : State) (e : EnvStep) (l : List EnvStep) :
    apply_steps st (e :: l) = apply_steps (EnvStep.apply st e) l := rfl

lemma apply_steps_append (st : State) (l1 l2 : List EnvStep) :
    apply_steps st (l1 ++ l2) = apply_steps (apply_steps st l1) l2 := by
  simp [apply_steps, List.foldl_append]

/-- Complete calls of `set()` one after the other are the atomic environment. -/
lemma apply_steps_of_sets (env : List Nat) (st : State) :
    apply_steps st (env.flatMap SingleEvent.set_steps) = apply_sets st env := by
  induction env generalizing st with
  | nil => rfl
  | cons a l ih =>
    rw [List.flatMap_cons, apply_steps_append, apply_steps_set_steps, ih, apply_sets_cons]

@[simp] lemma EnvStep_apply_kind (st : State) (e : EnvStep) (j : Nat) :
    ((EnvStep.apply st e).sig j).kind = (st.sig j).kind := by
  cases e <;> simp [EnvStep.apply]

@[simp] lemma EnvStep_apply_bound (st : State) (e : EnvStep) (j : Nat) :
    ((EnvStep.apply st e).sig j).bound_events = (st.sig j).bound_events := by
  cases e <;> simp [EnvStep.apply]

@[simp] lemma apply_steps_kind (l : List EnvStep) (st : State) (j : Nat) :
    ((apply_steps st l).sig j).kind = (st.sig j).kind := by
  induction l generalizing st with
  | nil => rfl
  | cons e l ih => rw [apply_steps_cons, ih, EnvStep_apply_kind]

@[simp] lemma apply_steps_bound (l : List EnvStep) (st : State) (j : Nat) :
    ((apply_steps st l).sig j).bound_events = (st.sig j).bound_events := by
  induction l generalizing st with
  | nil => rfl
  | cons e l ih => rw [apply_steps_cons, ih, EnvStep_apply_bound]

/-- The schedule in which every `set()` is complete before the caller looks
again is the atomic embedding, when the scan left the binder event unset. -/
lemma wait_multiple_events_sched_atomic (st : State) (m : Nat) (events env : List Nat)
    (h : ((scan_events m events (new_shared_ev st m)).1.mux m).event_is_set = false) :
    SingleEvent.wait_multiple_events_sched st m events (env.flatMap SingleEvent.set_steps) [] []
      = SingleEvent.wait_multiple_events st m events env := by
  unfold SingleEvent.wait_multiple_events_sched SingleEvent.wait_multiple_events
    BinderEvent.wait cv_wait
  simp only [apply_steps_of_sets, apply_steps_nil, h]
  by_cases hset : ((apply_sets (scan_events m events (new_shared_ev st m)).1 env).mux m).event_is_set
      = true
  · simp only [hset, if_true]
    cases hsrc :
        ((apply_sets (scan_events m events (new_shared_ev st m)).1 env).mux m).event_source with
    | none => simp [hsrc]
    | some v => simp [hsrc]
  · simp [hset]

/-! ## `wait_multiple_events`: the claims -/

/-- C2: the untimed `wait_multiple_events` on a candidate list in which some
signal is already set returns without blocking (whatever other threads do
later, and also when nobody ever calls `set()`), and it returns the first
signal of the list that was set when the call started. -/
theorem wait_multiple_events_returns_first_set (st : State) (m : Nat) (events : List Nat)
    (env : List Nat) (h : ∃ i ∈ events, (st.sig i).event_is_set = true) :
    ∃ st1 w, SingleEvent.wait_multiple_events st m events env = some (st1, w) ∧
      SingleEvent.wait_multiple_events st m events [] = some (st1, w) ∧
      events.find? (fun i => (st.sig i).event_is_set) = some w := by
  obtain ⟨w, hw, hmux, _⟩ := scan_events_first_set m events (new_shared_ev st m) h
  have hwait : ∀ e, BinderEvent.wait (scan_events m events (new_shared_ev st m)).1 m e
      = some ((scan_events m events (new_shared_ev st m)).1, some w) := by
    intro e
    simp [BinderEvent.wait, cv_wait, hmux]
  refine ⟨unbind_all m events (Signal.reset (scan_events m events (new_shared_ev st m)).1 w),
    w, ?_, ?_, hw⟩
  · simp only [SingleEvent.wait_multiple_events, hwait env]
  · simp only [SingleEvent.wait_multiple_events, hwait []]

/-- The candidates `{0, 1, 2}` with `1` already set: the call returns `1`. -/
theorem wait_multiple_events_returns_first_set_witness :
    (∃ i ∈ [0, 1, 2], ((SingleEvent.set (State.init all_auto) 1).sig i).event_is_set = true) ∧
      ∃ st1 w, SingleEvent.wait_multiple_events (SingleEvent.set (State.init all_auto) 1) 7
          [0, 1, 2] [] = some (st1, w) ∧
        SingleEvent.wait_multiple_events (SingleEvent.set (State.init all_auto) 1) 7
          [0, 1, 2] [] = some (st1, w) ∧
        [0, 1, 2].find? (fun i => ((SingleEvent.set (State.init all_auto) 1).sig i).event_is_set)
          = some w :=
  ⟨⟨1, by decide, rfl⟩,
    wait_multiple_events_returns_first_set (SingleEvent.set (State.init all_auto) 1) 7
      [0, 1, 2] [] ⟨1, by decide, rfl⟩⟩

/-- C4: whenever either variant of `wait_multiple_events` returns (a candidate
was set at call time, a candidate fired during the wait, or the timed variant
ran out of time), the binder event `m` of the call, a fresh local object bound
to no candidate before the call, is a member of no candidate's bound set, and
every bound set, of candidates and of other signals, is what it was before
the call. -/
theorem wait_multiple_events_unbinds (st : State) (m : Nat) (events : List Nat)
    (hfresh : ∀ i ∈ events, m ∉ (st.sig i).bound_events) :
    (∀ env st1 w, SingleEvent.wait_multiple_events st m events env = some (st1, w) →
      ∀ i, (st1.sig i).bound_events = (st.sig i).bound_events ∧
        (i ∈ events → m ∉ (st1.sig i).bound_events)) ∧
    (∀ t t_start clk env fuel st1 r,
      SingleEvent.wait_multiple_events_for st m events t t_start clk env fuel = some (st1, r) →
      ∀ i, (st1.sig i).bound_events = (st.sig i).bound_events ∧
        (i ∈ events → m ∉ (st1.sig i).bound_events)) := by
  have hscan : ∀ x,
      ((scan_events m events (new_shared_ev st m)).1.sig x).bound_events = (st.sig x).bound_events ∨
        (x ∈ events ∧ ((scan_events m events (new_shared_ev st m)).1.sig x).bound_events
          = (st.sig x).bound_events.insert m) := by
    intro x
    simpa using scan_events_bound m events (new_shared_ev st m) x
  have hfin : ∀ s : State,
      (∀ x, (s.sig x).bound_events
        = ((scan_events m events (new_shared_ev st m)).1.sig x).bound_events) →
      ∀ i, ((unbind_all m events s).sig i).bound_events = (st.sig i).bound_events ∧
        (i ∈ events → m ∉ ((unbind_all m events s).sig i).bound_events) := by
    intro s hs i
    have heq := unbind_all_bound m (fun x => (st.sig x).bound_events) events s hfresh
      (fun x => by rw [hs x]; exact hscan x) i
    exact ⟨heq, fun hi => by rw [heq]; exact hfresh i hi⟩
  refine ⟨fun env st1 w h => ?_, fun t t_start clk env fuel st1 r h => ?_⟩
  · unfold SingleEvent.wait_multiple_events at h
    cases hw : BinderEvent.wait (scan_events m events (new_shared_ev st m)).1 m env with
    | none => rw [hw] at h; simp at h
    | some p =>
      obtain ⟨st2, src⟩ := p
      rw [hw] at h
      cases src with
      | none => simp at h
      | some ev_source =>
        simp only [Option.some.injEq, Prod.mk.injEq] at h
        obtain ⟨rfl, _⟩ := h
        exact hfin _ (fun x => by rw [reset_bound]; exact BinderEvent_wait_bound _ _ _ _ _ hw x)
  · unfold SingleEvent.wait_multiple_events_for at h
    cases hw : BinderEvent.wait_for (scan_events m events (new_shared_ev st m)).1 m t t_start
        clk env fuel with
    | none => rw [hw] at h; simp at h
    | some p =>
      obtain ⟨pred, src, k, st2⟩ := p
      rw [hw] at h
      cases src with
      | none =>
        simp only [Option.some.injEq, Prod.mk.injEq] at h
        obtain ⟨rfl, _⟩ := h
        exact hfin _ (fun x => BinderEvent_wait_for_bound _ _ _ _ _ _ _ _ _ _ _ hw x)
      | some ev_source =>
        simp only [Option.some.injEq, Prod.mk.injEq] at h
        obtain ⟨rfl, _⟩ := h
        exact hfin _ (fun x => by
          rw [reset_bound]; exact BinderEvent_wait_for_bound _ _ _ _ _ _ _ _ _ _ _ hw x)

/-- The timed variant on two fresh signals that nobody sets, timeout `5`: the
call times out, returns `nullptr`, and both bound sets are empty as before. -/
theorem wait_multiple_events_unbinds_witness :
    (∀ i ∈ [0, 1], 7 ∉ ((State.init all_single).sig i).bound_events) ∧
      ∃ st1, SingleEvent.wait_multiple_events_for (State.init all_single) 7 [0, 1] 5 0
          step_clock no_sets 2 = some (st1, none) ∧
        (st1.sig 0).bound_events = [] ∧ (st1.sig 1).bound_events = [] := by
  refine ⟨fun i _ => by simp [State.init], ?_⟩
  cases h : SingleEvent.wait_multiple_events_for (State.init all_single) 7 [0, 1] 5 0
      step_clock no_sets 2 with
  | none =>
    have hsome : (SingleEvent.wait_multiple_events_for (State.init all_single) 7 [0, 1] 5 0
        step_clock no_sets 2).isSome = true := by decide
    rw [h] at hsome
    exact absurd hsome (by decide)
  | some p =>
    obtain ⟨st1, r⟩ := p
    have hr : r = none := by
      have : (SingleEvent.wait_multiple_events_for (State.init all_single) 7 [0, 1] 5 0
        step_clock no_sets 2).map (fun q => q.2) = some none := by decide
      rw [h] at this
      simpa using this
    subst hr
    have hb := (wait_multiple_events_unbinds (State.init all_single) 7 [0, 1]
      (fun i _ => by simp [State.init])).2 5 0 step_clock no_sets 2 st1 none h
    exact ⟨st1, rfl, (hb 0).1, (hb 1).1⟩

/-- C6 (the code at the failing input): the timed `wait_multiple_events` on the
candidates `{0, 1, 2}` with `1` already set and a timeout of `0`.  The scan
finds `1` and sets the binder event, but `BinderEvent::wait_for(0)` never tests
the flag: the call returns `nullptr`.  For auto-reset events the flag of `1`
has been cleared by the `is_set()` of the scan, so the set is lost. -/
theorem wait_multiple_events_for_zero_timeout :
    ((SingleEvent.set (State.init all_single) 1).sig 1).event_is_set = true ∧
      (SingleEvent.wait_multiple_events_for (SingleEvent.set (State.init all_single) 1) 7
          [0, 1, 2] 0 0 step_clock no_sets 1).map (fun r => (r.2, (r.1.sig 1).event_is_set))
        = some (none, true) ∧
      ((SingleEvent.set (State.init all_auto) 1).sig 1).event_is_set = true ∧
      (SingleEvent.wait_multiple_events_for (SingleEvent.set (State.init all_auto) 1) 7
          [0, 1, 2] 0 0 step_clock no_sets 1).map (fun r => (r.2, (r.1.sig 1).event_is_set))
        = some (none, false) := by
  decide

/-! ## `BinderEvent::set` and the order of the steps of `SingleEvent::set` -/

/-- C13 (the claim as stated fails): a binder event set with source `0` and then
set again with source `1` stays set, but its recorded source is now `1`, and a
`wait` on it reports `1`. -/
theorem BinderEvent_second_set_overwrites_source :
    ((BinderEvent.set (State.init all_single) 7 0).mux 7).event_source = some 0 ∧
      ((BinderEvent.set (BinderEvent.set (State.init all_single) 7 0) 7 1).mux 7).event_is_set
        = true ∧
      ((BinderEvent.set (BinderEvent.set (State.init all_single) 7 0) 7 1).mux 7).event_source
        = some 1 ∧
      (BinderEvent.wait (BinderEvent.set (BinderEvent.set (State.init all_single) 7 0) 7 1) 7
          []).map (fun r => r.2) = some (some 1) := by
  decide

/-- Two auto-reset events both fire before the caller of `wait_multiple_events`
looks again: the call returns the one that fired last and resets it; the one
that fired first stays set. -/
lemma wait_multiple_events_last_set_wins :
    (SingleEvent.wait_multiple_events (State.init all_auto) 7 [0, 1] [0, 1]).map
        (fun r => (r.2, (r.1.sig 0).event_is_set, (r.1.sig 1).event_is_set))
      = some (1, true, false) := by
  decide

/-- C13 (as amended): for a binder event that has already been set with source
`A`, a later `set(B)` leaves it set and replaces the recorded source by `B`;
a subsequent `wait`, and a subsequent `wait_for` whose first chunk is
positive, report `B`, the source of the most recent `set`. -/
theorem BinderEvent_set_after_set (st : State) (m A B : Nat) :
    ((BinderEvent.set (BinderEvent.set st m A) m B).mux m).event_is_set = true ∧
    ((BinderEvent.set (BinderEvent.set st m A) m B).mux m).event_source = some B ∧
    (∀ env, BinderEvent.wait (BinderEvent.set (BinderEvent.set st m A) m B) m env
      = some (BinderEvent.set (BinderEvent.set st m A) m B, some B)) ∧
    (∀ t t_start clk env fuel d, wait_time_no_overflow t t_start (clk 0) = some d → 0 < d →
      BinderEvent.wait_for (BinderEvent.set (BinderEvent.set st m A) m B) m t t_start clk env
          (fuel + 1)
        = some (true, some B, 1, BinderEvent.set (BinderEvent.set st m A) m B)) := by
  have hmux : (BinderEvent.set (BinderEvent.set st m A) m B).mux m
      = { event_is_set := true, event_source := some B } := by simp
  refine ⟨by rw [hmux], by rw [hmux], fun env => ?_, fun t t_start clk env fuel d hd hpos => ?_⟩
  · simp [BinderEvent.wait, cv_wait, hmux]
  · have hloop := timed_wait_loop_of_set
      (fun s => (s.mux m).event_is_set) t t_start clk env fuel 0
      (BinderEvent.set (BinderEvent.set st m A) m B) d hd hpos (by simp)
    simp only [BinderEvent.wait_for, hloop, hmux]
    simp

/-- A binder event set by `0` and then by `1`, waited on for `5` ticks. -/
theorem BinderEvent_set_after_set_witness :
    (wait_time_no_overflow 5 0 (step_clock 0) = some 5 ∧ (0 : Int) < 5) ∧
      (BinderEvent.wait_for (BinderEvent.set (BinderEvent.set (State.init all_single) 7 0) 7 1)
          7 5 0 step_clock no_sets 1).map (fun r => (r.1, r.2.1, r.2.2.1))
        = some (true, some 1, 1) :=
  ⟨⟨by decide, by decide⟩, by
    rw [(BinderEvent_set_after_set (State.init all_single) 7 0 1).2.2.2 5 0 step_clock no_sets 0 5
      (by decide) (by decide)]
    rfl⟩
/-- After `set()` has returned the flag of the signal is `true` and every
binder event bound to it is set with the signal as its source. -/
lemma set_postcondition (st : State) (i : Nat) :
    ((SingleEvent.set st i).sig i).event_is_set = true ∧
      ∀ ev ∈ (st.sig i).bound_events,
        (SingleEvent.set st i).mux ev = { event_is_set := true, event_source := some i } := by
  refine ⟨by simp, fun ev hev => ?_⟩
  rw [set_mux]; simp [hev]

/-- C14 (the code at the failing input): two unset auto-reset events `0` and
`1`, a caller blocked in `wait_multiple_events({0, 1})` with its binder event
at `7`, and a call `set()` on `0`.  The first step of `set()` sets the binder
event while the flag of `0` is still `false`.  The caller can therefore wake,
return `0`, reset it and unbind before the second step stores the flag, and
`0` is then left set after the call has returned it; when the store comes
before the caller's reset, `0` is unset afterwards.  A store made first, as
the claim has it, would not wake the caller. -/
theorem set_notifies_before_storing_flag :
    SingleEvent.set_steps 0 = [EnvStep.notify 0, EnvStep.store 0] ∧
      ((EnvStep.apply (scan_events 7 [0, 1] (new_shared_ev (State.init all_auto) 7)).1
          (EnvStep.notify 0)).mux 7 = { event_is_set := true, event_source := some 0 } ∧
        ((EnvStep.apply (scan_events 7 [0, 1] (new_shared_ev (State.init all_auto) 7)).1
          (EnvStep.notify 0)).sig 0).event_is_set = false) ∧
      (SingleEvent.wait_multiple_events_sched (State.init all_auto) 7 [0, 1]
          [EnvStep.notify 0] [] [EnvStep.store 0]).map
        (fun r => (r.2, (r.1.sig 0).event_is_set)) = some (0, true) ∧
      (SingleEvent.wait_multiple_events_sched (State.init all_auto) 7 [0, 1]
          [EnvStep.notify 0] [EnvStep.store 0] []).map
        (fun r => (r.2, (r.1.sig 0).event_is_set)) = some (0, false) ∧
      (SingleEvent.wait_multiple_events_sched (State.init all_auto) 7 [0, 1]
          [EnvStep.store 0] [] [EnvStep.notify 0]).isSome = false := by
  decide

/-! ## The registry -/

/-- Adding to the registry keeps it free of repetitions. -/
lemma add_thread_nodup (l : List Nat) (t : Nat) (h : l.Nodup) :
    (SharedInst.add_thread l t).Nodup :=
  h.insert

/-- Removing from the registry keeps it free of repetitions. -/
lemma remove_thread_nodup (l : List Nat) (t : Nat) (h : l.Nodup) :
    (SharedInst.remove_thread l t).Nodup := by
  unfold SharedInst.remove_thread
  split
  · exact h
  · exact h.erase t

/-- After `remove_thread(t)` the registry does not contain `t`. -/
lemma not_mem_remove_thread (l : List Nat) (t : Nat) (h : l.Nodup) :
    t ∉ SharedInst.remove_thread l t := by
  unfold SharedInst.remove_thread
  split
  · next he =>
    have : l = [] := by simpa using he
    rw [this]; simp
  · intro hm
    exact ((h.mem_erase_iff).mp hm).1 rfl

/-- Removing an identity that is not registered changes nothing. -/
lemma remove_thread_of_not_mem (l : List Nat) (t : Nat) (h : t ∉ l) :
    SharedInst.remove_thread l t = l := by
  unfold SharedInst.remove_thread
  split
  · rfl
  · exact List.erase_of_not_mem h

lemma move_thread_active_threads (w : World) (this t : Nat) (w1 : World)
    (h : move_thread w this t = some w1) :
    w1.active_threads
      = SharedInst.add_thread (SharedInst.remove_thread w.active_threads t) this := by
  unfold move_thread at h
  split at h
  · exact Option.noConfusion h
  · split at h
    · exact Option.noConfusion h
    · obtain rfl := Option.some.inj h
      rfl

lemma thread_join_active_threads (w : World) (this : Nat) (w1 : World)
    (h : thread_join w this = some w1) : w1.active_threads = w.active_threads := by
  unfold thread_join at h
  split at h
  · exact Option.noConfusion h
  · split at h
    · obtain rfl := Option.some.inj h
      rfl
    · exact Option.noConfusion h

lemma join_active_threads (w : World) (this : Nat) (w1 : World) (h : join w this = some w1) :
    w1.active_threads = SharedInst.remove_thread w.active_threads this := by
  unfold join at h
  cases hj : thread_join w this with
  | none => rw [hj] at h; exact Option.noConfusion h
  | some w2 =>
    rw [hj] at h
    obtain rfl := Option.some.inj h
    simp only [thread_join_active_threads w this w2 hj]

lemma destroy_active_threads (w : World) (this : Nat) (w1 : World)
    (h : destroy w this = some w1) :
    w1.active_threads = SharedInst.remove_thread w.active_threads this := by
  unfold destroy at h
  split at h
  · cases hj : thread_join w this with
    | none => rw [hj] at h; exact Option.noConfusion h
    | some w2 =>
      rw [hj] at h
      obtain rfl := Option.some.inj h
      simp only [thread_join_active_threads w this w2 hj]
  · obtain rfl := Option.some.inj h
    rfl

@[simp] lemma put_obj_active_threads (w : World) (x : Nat) (o : SafeThreadObj) :
    (w.put_obj x o).active_threads = w.active_threads := rfl

@[simp] lemma unfreeze_active_threads (w : World) (x : Nat) :
    (unfreeze w x).active_threads = w.active_threads := by
  unfold unfreeze; split <;> rfl

lemma construct_active_threads (w : World) (x : Nat) (frozen : Option Bool) :
    (construct w x frozen).active_threads = SharedInst.add_thread w.active_threads x := by
  cases frozen with
  | none => rfl
  | some b =>
    cases b with
    | true => rfl
    | false => simp [construct, WrapAndLaunch_Frozen, WrapAndLaunch]

lemma thread_step_active_threads (func : Nat → Nat → Option Nat)
    (h : Nat → Nat → tracked_exception → Bool) (w : World) (tid : Nat) :
    (thread_step func h w tid).active_threads = w.active_threads := by
  unfold thread_step
  split
  · rfl
  · split <;> rfl
  · rfl
  · rfl

/-- Every operation keeps the registry free of repetitions. -/
lemma apply_op_nodup (func : Nat → Nat → Option Nat) (h : Nat → Nat → tracked_exception → Bool)
    (w : World) (op : SupOp) (w1 : World) (hn : w.active_threads.Nodup)
    (hop : apply_op func h w op = some w1) : w1.active_threads.Nodup := by
  cases op with
  | construct x frozen =>
    obtain rfl := Option.some.inj hop
    rw [construct_active_threads]; exact add_thread_nodup _ _ hn
  | construct_default x =>
    obtain rfl := Option.some.inj hop
    exact hn
  | move_construct x t =>
    rw [move_thread_active_threads _ _ _ _ hop]
    exact add_thread_nodup _ _ (remove_thread_nodup _ _ hn)
  | move_assign x t =>
    rw [move_thread_active_threads _ _ _ _ hop]
    exact add_thread_nodup _ _ (remove_thread_nodup _ _ hn)
  | unfreeze x =>
    obtain rfl := Option.some.inj hop
    rw [unfreeze_active_threads]; exact hn
  | join x =>
    rw [join_active_threads _ _ _ hop]; exact remove_thread_nodup _ _ hn
  | destroy x =>
    rw [destroy_active_threads _ _ _ hop]; exact remove_thread_nodup _ _ hn
  | step tid =>
    obtain rfl := Option.some.inj hop
    rw [thread_step_active_threads]; exact hn

/-- Every run keeps the registry free of repetitions. -/
lemma run_nodup (func : Nat → Nat → Option Nat) (h : Nat → Nat → tracked_exception → Bool) :
    ∀ (ops : List SupOp) (w w1 : World), w.active_threads.Nodup →
      run func h ops w = some w1 → w1.active_threads.Nodup := by
  intro ops
  induction ops with
  | nil =>
    intro w w1 hn hr
    obtain rfl := Option.some.inj hr
    exact hn
  | cons op ops ih =>
    intro w w1 hn hr
    rw [run] at hr
    cases hop : apply_op func h w op with
    | none => rw [hop] at hr; exact Option.noConfusion hr
    | some w2 =>
      rw [hop] at hr
      exact ih w2 w1 (apply_op_nodup func h w op w2 hn hop) hr

/-- C11: in every state a run of supervisor operations (construction with
launch, move construction and move assignment, `unfreeze`, `join`,
destruction, steps of the owned threads) reaches from the start of the
process, the registry holds every identity at most once; a `join()` or a
destructor that returns leaves its supervisor out of the registry; a move into
another supervisor leaves the moved-from supervisor out and the target in; and
removing an identity that is not present leaves the registry unchanged. -/
theorem registry_membership_invariant (func : Nat → Nat → Option Nat)
    (exception_handler : Nat → Nat → tracked_exception → Bool) (ops : List SupOp) (w : World)
    (hrun : run func exception_handler ops World.init = some w) :
    w.active_threads.Nodup ∧
    (∀ x w1, join w x = some w1 → x ∉ w1.active_threads ∧ w1.active_threads.Nodup) ∧
    (∀ x w1, destroy w x = some w1 → x ∉ w1.active_threads ∧ w1.active_threads.Nodup) ∧
    (∀ this t w1, t ≠ this → move_thread w this t = some w1 →
      t ∉ w1.active_threads ∧ this ∈ w1.active_threads ∧ w1.active_threads.Nodup) ∧
    (∀ t, t ∉ w.active_threads → SharedInst.remove_thread w.active_threads t = w.active_threads) := by
  have hn : w.active_threads.Nodup :=
    run_nodup func exception_handler ops World.init w List.nodup_nil hrun
  refine ⟨hn, fun x w1 h => ?_, fun x w1 h => ?_, fun this t w1 hne h => ?_,
    fun t ht => remove_thread_of_not_mem _ _ ht⟩
  · rw [join_active_threads _ _ _ h]
    exact ⟨not_mem_remove_thread _ _ hn, remove_thread_nodup _ _ hn⟩
  · rw [destroy_active_threads _ _ _ h]
    exact ⟨not_mem_remove_thread _ _ hn, remove_thread_nodup _ _ hn⟩
  · rw [move_thread_active_threads _ _ _ _ h]
    refine ⟨?_, ?_, add_thread_nodup _ _ (remove_thread_nodup _ _ hn)⟩
    · unfold SharedInst.add_thread
      rw [List.mem_insert_iff]
      rintro (e | hm)
      · exact hne e
      · exact not_mem_remove_thread _ _ hn hm
    · unfold SharedInst.add_thread
      exact List.mem_insert_self _ _

/-- One supervisor launched, its thread run to the end: the run is well
defined, the registry has no repetition, and `join()` leaves the supervisor
out of the registry. -/
theorem registry_membership_invariant_witness :
    ∃ w, run all_complete never_retry [SupOp.construct 1 none, SupOp.step 0, SupOp.step 0]
        World.init = some w ∧
      w.active_threads.Nodup ∧ ∃ w1, join w 1 = some w1 ∧ 1 ∉ w1.active_threads := by
  have hrun : run all_complete never_retry [SupOp.construct 1 none, SupOp.step 0, SupOp.step 0]
      World.init
      = some (thread_step all_complete never_retry
          (thread_step all_complete never_retry (construct World.init 1 none) 0) 0) := rfl
  have hinv := registry_membership_invariant all_complete never_retry _ _ hrun
  refine ⟨_, hrun, hinv.1, ?_⟩
  cases hj : join (thread_step all_complete never_retry
      (thread_step all_complete never_retry (construct World.init 1 none) 0) 0) 1 with
  | none =>
    have hsome : (join (thread_step all_complete never_retry
      (thread_step all_complete never_retry (construct World.init 1 none) 0) 0) 1).isSome
        = true := by decide
    rw [hj] at hsome
    exact absurd hsome (by decide)
  | some w1 => exact ⟨w1, rfl, (hinv.2.1 1 w1 hj).1⟩

/-! ## Frozen launch -/

/-- A wait on an unset gate, nobody setting it, does not return. -/
lemma Signal_wait_nil_of_unset (st : State) (g : Nat) (h : (st.sig g).event_is_set = false) :
    Signal.wait st g [] = none := by
  unfold Signal.wait
  split <;> simp [Event.wait, SingleEvent.wait, cv_wait, h]

/-- A condition-variable wait that returns while nobody calls `set()` returns
in the state in which it was entered. -/
lemma cv_wait_nil (p : State → Bool) (st st1 : State) (h : cv_wait p st [] = some st1) :
    st1 = st := by
  simp only [cv_wait, apply_sets_nil] at h
  split at h
  · exact (Option.some.inj h).symm
  · simp at h

/-- A wait that returns, nobody having called `set()`, sets no flag. -/
lemma Signal_wait_nil_flag (st : State) (i : Nat) (st1 : State)
    (h : Signal.wait st i [] = some st1) (j : Nat) (hj : (st.sig j).event_is_set = false) :
    (st1.sig j).event_is_set = false := by
  unfold Signal.wait at h
  split at h
  · rw [cv_wait_nil _ _ _ h]; exact hj
  · unfold Event.wait at h
    cases hw : SingleEvent.wait st i [] with
    | none => rw [hw] at h; exact Option.noConfusion h
    | some st2 =>
      rw [hw] at h
      obtain rfl := Option.some.inj h
      rw [cv_wait_nil _ _ _ hw, store_flag_flag]
      split
      · rfl
      · exact hj

/-- What a frozen construction sets up: the gate at the next unused address,
unset; the owned thread, with the following identifier, in front of that gate;
the pointer to the gate in `unfreeze_event`. -/
lemma construct_frozen_spec (w : World) (x : Nat) :
    ((construct w x (some true)).events.sig w.next).event_is_set = false ∧
      (construct w x (some true)).pc (w.next + 1) = ThreadPc.at_gate (some w.next) ∧
      (construct w x (some true)).next = w.next + 2 ∧
      ((construct w x (some true)).obj x).thread = some (w.next + 1) ∧
      ((construct w x (some true)).obj x).unfreeze_event = some w.next := by
  simp [construct, WrapAndLaunch_Frozen, WrapAndLaunch, store_new_gate, World.put_obj]

/-- The gate `g` is unset, the thread `tid` stands in front of it, and both
were allocated: this is kept by every operation that is not `unfreeze()`. -/
lemma apply_op_keeps_gate_closed (func : Nat → Nat → Option Nat)
    (h : Nat → Nat → tracked_exception → Bool) (g tid : Nat) (w : World) (op : SupOp)
    (w1 : World) (hop : op.is_unfreeze = false)
    (hflag : (w.events.sig g).event_is_set = false)
    (hpc : w.pc tid = ThreadPc.at_gate (some g)) (hg : g < w.next) (ht : tid < w.next)
    (happ : apply_op func h w op = some w1) :
    (w1.events.sig g).event_is_set = false ∧ w1.pc tid = ThreadPc.at_gate (some g) ∧
      g < w1.next ∧ tid < w1.next := by
  have hgn : g ≠ w.next := Nat.ne_of_lt hg
  have htn : tid ≠ w.next := Nat.ne_of_lt ht
  have htn1 : tid ≠ w.next + 1 := by omega
  cases op with
  | construct x frozen =>
    obtain rfl := Option.some.inj happ
    cases frozen with
    | none =>
      simp only [construct, WrapAndLaunch, World.put_obj]
      exact ⟨hflag, by simp [htn, hpc], by omega, by omega⟩
    | some b =>
      cases b with
      | true =>
        simp only [construct, WrapAndLaunch_Frozen, WrapAndLaunch, store_new_gate, World.put_obj,
          if_true]
        refine ⟨?_, by simp [htn1, hpc], by omega, by omega⟩
        rw [put_sig_sig, if_neg hgn]; exact hflag
      | false =>
        simp [construct, WrapAndLaunch_Frozen, WrapAndLaunch, unfreeze, World.put_obj,
          SafeThreadObj.fresh]
        exact ⟨hflag, by simp [htn, hpc], by omega, by omega⟩
  | construct_default x =>
    obtain rfl := Option.some.inj happ
    exact ⟨hflag, hpc, hg, ht⟩
  | move_construct x t =>
    simp only [apply_op, move_thread] at happ
    split at happ
    · exact Option.noConfusion happ
    · split at happ
      · exact Option.noConfusion happ
      · obtain rfl := Option.some.inj happ
        exact ⟨hflag, hpc, hg, ht⟩
  | move_assign x t =>
    simp only [apply_op, move_thread] at happ
    split at happ
    · exact Option.noConfusion happ
    · split at happ
      · exact Option.noConfusion happ
      · obtain rfl := Option.some.inj happ
        exact ⟨hflag, hpc, hg, ht⟩
  | unfreeze x => simp [SupOp.is_unfreeze] at hop
  | join x =>
    simp only [apply_op, join, thread_join] at happ
    split at happ
    · exact Option.noConfusion happ
    · next w2 hw2 =>
      obtain rfl := Option.some.inj happ
      split at hw2
      · exact Option.noConfusion hw2
      · split at hw2
        · obtain rfl := Option.some.inj hw2
          exact ⟨hflag, hpc, hg, ht⟩
        · exact Option.noConfusion hw2
  | destroy x =>
    simp only [apply_op, destroy, thread_join] at happ
    split at happ
    · split at happ
      · exact Option.noConfusion happ
      · next w2 hw2 =>
        obtain rfl := Option.some.inj happ
        split at hw2
        · exact Option.noConfusion hw2
        · split at hw2
          · obtain rfl := Option.some.inj hw2
            exact ⟨hflag, hpc, hg, ht⟩
          · exact Option.noConfusion hw2
    · obtain rfl := Option.some.inj happ
      exact ⟨hflag, hpc, hg, ht⟩
  | step tid1 =>
    obtain rfl := Option.some.inj happ
    by_cases he : tid1 = tid
    · subst he
      have hstep : thread_step func h w tid1 = w := by
        simp only [thread_step, hpc, Signal_wait_nil_of_unset _ _ hflag]
      rw [hstep]
      exact ⟨hflag, hpc, hg, ht⟩
    · have hne : tid ≠ tid1 := fun e => he e.symm
      unfold thread_step
      split
      · exact ⟨hflag, by simp [World.put_pc, hne, hpc], hg, ht⟩
      · split
        · exact ⟨hflag, hpc, hg, ht⟩
        · next ev1 hw =>
          exact ⟨Signal_wait_nil_flag _ _ _ hw g hflag, by simp [hne, hpc], hg, ht⟩
      · exact ⟨hflag, by simp [World.put_pc, hne, hpc], hg, ht⟩
      · exact ⟨hflag, hpc, hg, ht⟩

/-- A run without `unfreeze()` keeps the gate closed and the thread in front
of it. -/
lemma run_keeps_gate_closed (func : Nat → Nat → Option Nat)
    (h : Nat → Nat → tracked_exception → Bool) (g tid : Nat) :
    ∀ (ops : List SupOp) (w w1 : World), (∀ op ∈ ops, op.is_unfreeze = false) →
      (w.events.sig g).event_is_set = false → w.pc tid = ThreadPc.at_gate (some g) →
      g < w.next → tid < w.next → run func h ops w = some w1 →
      (w1.events.sig g).event_is_set = false ∧ w1.pc tid = ThreadPc.at_gate (some g) := by
  intro ops
  induction ops with
  | nil =>
    intro w w1 _ hflag hpc _ _ hr
    obtain rfl := Option.some.inj hr
    exact ⟨hflag, hpc⟩
  | cons op ops ih =>
    intro w w1 hops hflag hpc hg ht hr
    rw [run] at hr
    cases hop : apply_op func h w op with
    | none => rw [hop] at hr; exact Option.noConfusion hr
    | some w2 =>
      rw [hop] at hr
      obtain ⟨h1, h2, h3, h4⟩ := apply_op_keeps_gate_closed func h g tid w op w2
        (hops op (List.mem_cons_self _ _)) hflag hpc hg ht hop
      exact ih w2 w1 (fun o ho => hops o (List.mem_cons_of_mem _ ho)) h1 h2 h3 h4 hr

/-- With a null `unfreeze_event` the call `unfreeze()` changes nothing. -/
lemma unfreeze_of_null (w : World) (x : Nat) (h : (w.obj x).unfreeze_event = none) :
    unfreeze w x = w := by
  simp [unfreeze, h]

/-- After `unfreeze()` the pointer `unfreeze_event` is null. -/
lemma unfreeze_clears_pointer (w : World) (x : Nat) :
    ((unfreeze w x).obj x).unfreeze_event = none := by
  cases hx : (w.obj x).unfreeze_event with
  | none => rw [unfreeze_of_null w x hx]; exact hx
  | some ev => simp [unfreeze, hx]

/-- A second `unfreeze()` on the same supervisor changes nothing. -/
lemma unfreeze_unfreeze (w : World) (x : Nat) : unfreeze (unfreeze w x) x = unfreeze w x :=
  unfreeze_of_null _ _ (unfreeze_clears_pointer w x)

/-- After `unfreeze()` on a freshly constructed frozen supervisor the gate is
set, the owned thread passes it with its next step, and the step after that
is the first invocation of the callable. -/
lemma unfreeze_releases_thread (func : Nat → Nat → Option Nat)
    (h : Nat → Nat → tracked_exception → Bool) (w0 : World) (x : Nat) :
    ((unfreeze (construct w0 x (some true)) x).events.sig w0.next).event_is_set = true ∧
      (thread_step func h (unfreeze (construct w0 x (some true)) x) (w0.next + 1)).pc
          (w0.next + 1) = ThreadPc.in_loop { reenter := false, invocations := 0 } ∧
      ((thread_step func h (thread_step func h (unfreeze (construct w0 x (some true)) x)
          (w0.next + 1)) (w0.next + 1)).pc (w0.next + 1)).invocations = 1 := by
  obtain ⟨_, hpc, _, _, hptr⟩ := construct_frozen_spec w0 x
  have hkind : ((construct w0 x (some true)).events.sig w0.next).kind = SigKind.SingleEvent := by
    simp [construct, WrapAndLaunch_Frozen, WrapAndLaunch, store_new_gate, World.put_obj]
  have hev : (unfreeze (construct w0 x (some true)) x).events
      = SingleEvent.set (construct w0 x (some true)).events w0.next := by
    simp [unfreeze, hptr]
  have hpc1 : (unfreeze (construct w0 x (some true)) x).pc (w0.next + 1)
      = ThreadPc.at_gate (some w0.next) := by
    rw [← hpc]; simp [unfreeze, hptr]
  have hflag : ((unfreeze (construct w0 x (some true)) x).events.sig w0.next).event_is_set
      = true := by
    rw [hev]; simp
  have hwait : Signal.wait (unfreeze (construct w0 x (some true)) x).events w0.next []
      = some (unfreeze (construct w0 x (some true)) x).events := by
    have hk : ((unfreeze (construct w0 x (some true)) x).events.sig w0.next).kind
        = SigKind.SingleEvent := by
      rw [hev, set_kind]; exact hkind
    simp [Signal.wait, hk, SingleEvent.wait, cv_wait, hflag]
  have hstep1 : (thread_step func h (unfreeze (construct w0 x (some true)) x) (w0.next + 1)).pc
      (w0.next + 1) = ThreadPc.in_loop { reenter := false, invocations := 0 } := by
    simp [thread_step, hpc1, hwait]
  refine ⟨hflag, hstep1, ?_⟩
  generalize thread_step func h (unfreeze (construct w0 x (some true)) x) (w0.next + 1) = w2
    at hstep1 ⊢
  simp only [thread_step, hstep1, World.put_pc]
  simp only [if_true]
  split <;> simp [ThreadPc.invocations, loop_body] <;> split <;> rfl

/-- C12: for a supervisor constructed with `Frozen(true)`, in every state reached
from the construction by operations among which there is no `unfreeze()`
call, the owned thread stands blocked in front of the private start gate, the
gate is unset and the callable has been invoked zero times.  `unfreeze()` sets
the gate, after which the thread passes it and invokes the callable; a second
`unfreeze()` has no effect. -/
theorem frozen_launch_waits_for_unfreeze (func : Nat → Nat → Option Nat)
    (exception_handler : Nat → Nat → tracked_exception → Bool) (w0 : World) (this : Nat) :
    ((construct w0 this (some true)).obj this).thread = some (w0.next + 1) ∧
    (∀ ops w, (∀ op ∈ ops, SupOp.is_unfreeze op = false) →
      run func exception_handler ops (construct w0 this (some true)) = some w →
      w.pc (w0.next + 1) = ThreadPc.at_gate (some w0.next) ∧
        (w.pc (w0.next + 1)).invocations = 0 ∧
        (w.events.sig w0.next).event_is_set = false) ∧
    (((unfreeze (construct w0 this (some true)) this).events.sig w0.next).event_is_set = true ∧
      (thread_step func exception_handler (unfreeze (construct w0 this (some true)) this)
          (w0.next + 1)).pc (w0.next + 1)
        = ThreadPc.in_loop { reenter := false, invocations := 0 } ∧
      ((thread_step func exception_handler (thread_step func exception_handler
          (unfreeze (construct w0 this (some true)) this) (w0.next + 1)) (w0.next + 1)).pc
            (w0.next + 1)).invocations = 1) ∧
    (∀ w x, unfreeze (unfreeze w x) x = unfreeze w x) := by
  obtain ⟨hflag, hpc, hnext, hthread, _⟩ := construct_frozen_spec w0 this
  refine ⟨hthread, fun ops w hops hrun => ?_,
    unfreeze_releases_thread func exception_handler w0 this, unfreeze_unfreeze⟩
  obtain ⟨h1, h2⟩ := run_keeps_gate_closed func exception_handler w0.next (w0.next + 1) ops _ w
    hops hflag hpc (by omega) (by omega) hrun
  exact ⟨h2, by rw [h2]; rfl, h1⟩

/-- A frozen supervisor at address `1`; its thread is scheduled twice, another
supervisor is launched and runs, and the frozen thread is scheduled again: it
is still in front of its gate. -/
theorem frozen_launch_waits_for_unfreeze_witness :
    (∀ op ∈ [SupOp.step 1, SupOp.step 1, SupOp.construct 2 none, SupOp.step 2, SupOp.step 2,
        SupOp.step 1], SupOp.is_unfreeze op = false) ∧
      ∃ w, run all_complete never_retry
          [SupOp.step 1, SupOp.step 1, SupOp.construct 2 none, SupOp.step 2, SupOp.step 2,
            SupOp.step 1] (construct World.init 1 (some true)) = some w ∧
        w.pc 1 = ThreadPc.at_gate (some 0) ∧ (w.pc 1).invocations = 0 ∧
        (w.pc 2).invocations = 1 := by
  have hops : ∀ op ∈ [SupOp.step 1, SupOp.step 1, SupOp.construct 2 none, SupOp.step 2,
      SupOp.step 2, SupOp.step 1], SupOp.is_unfreeze op = false := by decide
  refine ⟨hops, ?_⟩
  cases hr : run all_complete never_retry
      [SupOp.step 1, SupOp.step 1, SupOp.construct 2 none, SupOp.step 2, SupOp.step 2,
        SupOp.step 1] (construct World.init 1 (some true)) with
  | none =>
    have hsome : (run all_complete never_retry
      [SupOp.step 1, SupOp.step 1, SupOp.construct 2 none, SupOp.step 2, SupOp.step 2,
        SupOp.step 1] (construct World.init 1 (some true))).isSome = true := by decide
    rw [hr] at hsome
    exact absurd hsome (by decide)
  | some w =>
    obtain ⟨h1, h2, _⟩ := (frozen_launch_waits_for_unfreeze all_complete never_retry
      World.init 1).2.1 _ w hops hr
    have h3 : (run all_complete never_retry
      [SupOp.step 1, SupOp.step 1, SupOp.construct 2 none, SupOp.step 2, SupOp.step 2,
        SupOp.step 1] (construct World.init 1 (some true))).map
          (fun v => (v.pc 2).invocations) = some 1 := by decide
    rw [hr] at h3
    exact ⟨w, rfl, h1, h2, by simpa using h3⟩

/-- The destructor (and likewise `join()`) of a frozen supervisor on which
`unfreeze()` was never called does not return: it joins a thread that stays
in front of its gate. -/
lemma destroy_frozen_blocks :
    (run all_complete never_retry [SupOp.destroy 1] (construct World.init 1 (some true))).isSome
        = false ∧
      (run all_complete never_retry [SupOp.step 1, SupOp.join 1]
        (construct World.init 1 (some true))).isSome = false := by
  decide

/-- A move leaves the pointer to the gate in the moved-from supervisor as
well: `move_thread` copies `unfreeze_event` without clearing the source. -/
lemma move_thread_keeps_source_pointer :
    (run all_complete never_retry [SupOp.move_construct 2 1]
        (construct World.init 1 (some true))).map
      (fun w => ((w.obj 1).unfreeze_event, (w.obj 2).unfreeze_event, (w.obj 1).thread,
        (w.obj 2).thread, w.active_threads)) = some (some 0, some 0, none, some 1, [2]) := by
  decide

end SafeThread
